import Mathlib

/-!
# dip-studio backend: shallow embedding and verification

This file embeds the core of the dip-studio backend (a design-document
studio: a typed node tree with materialised paths, JSON documents mutated
by RFC 6902 patches, and a context-assembly service) as executable Lean
definitions, and proves or refutes the frozen claims about it.

Source files embedded:
- `src/studio/backend/src/adapters/document_content_adapter.py`
- `src/studio/backend/src/adapters/node_adapter.py`
- `src/studio/backend/src/application/node_service.py`
- `src/studio/backend/src/domains/node.py`
- `src/studio/backend/src/utils/tiptap.py`
- `src/studio/backend/src/routers/node_router.py` (error translation)
- `src/studio/backend/src/infrastructure/exceptions.py` (status codes)

Database tables are modelled as lists of rows; SQL statements become list
traversals; `datetime.now()` becomes an explicit `now : Nat` argument and
`uuid.uuid4()` / `lastrowid` become explicit fresh-identifier arguments.
Python exceptions become `Except` values, and functions that touch the
store are written in state-passing style.
-/

namespace DipStudio

/-! ## JSON values

Python-side document content is plain JSON (`dict`/`list`/`str`/numbers/
bools/`None`).  Numbers are modelled as integers (no claim touches
non-integral numbers).  Objects are association lists with the first
binding of a key the visible one, matching `dict` lookup. -/

inductive Json where
  | null : Json
  | bool (b : Bool) : Json
  | num (n : Int) : Json
  | str (s : String) : Json
  | arr (elems : List Json) : Json
  | obj (fields : List (String × Json)) : Json
deriving Repr

mutual
/-- Structural equality of JSON values (models `==` on parsed JSON;
the Python `bool`/`int` cross-equality quirk is not exercised by any
claim and is not modelled). -/
def jsonEq : Json → Json → Bool
  | .null, .null => true
  | .bool a, .bool b => a == b
  | .num a, .num b => a == b
  | .str a, .str b => a == b
  | .arr a, .arr b => jsonListEq a b
  | .obj a, .obj b => jsonFieldsEq a b
  | _, _ => false

def jsonListEq : List Json → List Json → Bool
  | [], [] => true
  | x :: xs, y :: ys => jsonEq x y && jsonListEq xs ys
  | _, _ => false

def jsonFieldsEq : List (String × Json) → List (String × Json) → Bool
  | [], [] => true
  | (k, v) :: xs, (k', v') :: ys => k == k' && jsonEq v v' && jsonFieldsEq xs ys
  | _, _ => false
end

/-- `d.get(key)` on a JSON object's field list. -/
def lookupField : List (String × Json) → String → Option Json
  | [], _ => none
  | (k, v) :: rest, key => if k = key then some v else lookupField rest key

/-- Python truthiness of a JSON value (`None`, `False`, `0`, `""`, `[]`,
`{}` are falsy). -/
def jsonTruthy : Json → Bool
  | .null => false
  | .bool b => b
  | .num n => n != 0
  | .str s => s ≠ ""
  | .arr [] => false
  | .arr (_ :: _) => true
  | .obj [] => false
  | .obj (_ :: _) => true

/-- `isinstance(v, dict)`. -/
def Json.isObj : Json → Bool
  | .obj _ => true
  | _ => false

/-! ## RFC 6902 JSON Patch engine

Modelled from the spec: the third-party `jsonpatch` library used by
`DocumentContentAdapter.patch_content` is not part of the repository
sources; §4.3 of the spec fixes its semantics — "Apply operations using
RFC 6902 semantics.  Accepted ops: `add`, `remove`, `replace`, `move`,
`copy`, `test`.  Paths are JSON Pointers per RFC 6901, including the `-`
index for list append on `add`.  Any failed `test`, unresolved path, or
type-incompatible operation causes the entire patch to fail".  A patch
operation carries its JSON-Pointer path already split into reference
tokens. -/

inductive PatchOp where
  | add (path : List String) (value : Json)
  | remove (path : List String)
  | replace (path : List String) (value : Json)
  | move (src : List String) (path : List String)
  | copy (src : List String) (path : List String)
  | test (path : List String) (value : Json)
deriving Repr

/-- Interpret a reference token as an array index (RFC 6901: decimal
digits, no leading zero except "0" itself). -/
def tokenIndex (tok : String) : Option Nat :=
  match tok.toNat? with
  | some i => if tok.length > 1 ∧ tok.front = '0' then none else some i
  | none => none

/-- Resolve a JSON Pointer: walk the document along the tokens. -/
def ptrGet : Json → List String → Except String Json
  | doc, [] => .ok doc
  | .obj fields, tok :: rest =>
      match lookupField fields tok with
      | some v => ptrGet v rest
      | none => .error ("member not found: " ++ tok)
  | .arr elems, tok :: rest =>
      match tokenIndex tok with
      | some i =>
          match elems.get? i with
          | some v => ptrGet v rest
          | none => .error ("array index out of range: " ++ tok)
      | none => .error ("invalid array index: " ++ tok)
  | _, tok :: _ => .error ("cannot resolve token in a scalar: " ++ tok)

/-- Replace the (first) binding of `key`, keeping its position; append a
new binding when `key` is absent. -/
def setField : List (String × Json) → String → Json → List (String × Json)
  | [], key, v => [(key, v)]
  | (k, w) :: rest, key, v =>
      if k = key then (k, v) :: rest else (k, w) :: setField rest key v

/-- Remove the (first) binding of `key`. -/
def removeField : List (String × Json) → String → List (String × Json)
  | [], _ => []
  | (k, w) :: rest, key =>
      if k = key then rest else (k, w) :: removeField rest key

/-- `add` at a pointer (RFC 6902 §4.1): at the root the value replaces
the document; in an object the member is set; in an array the value is
inserted before index `i` (`i ≤ length`), `-` appends. -/
def ptrAdd : Json → List String → Json → Except String Json
  | _, [], v => .ok v
  | .obj fields, [tok], v => .ok (.obj (setField fields tok v))
  | .arr elems, [tok], v =>
      if tok = "-" then .ok (.arr (elems ++ [v]))
      else
        match tokenIndex tok with
        | some i =>
            if i ≤ elems.length then
              .ok (.arr (elems.take i ++ v :: elems.drop i))
            else .error ("array index out of range: " ++ tok)
        | none => .error ("invalid array index: " ++ tok)
  | doc, tok :: rest, v =>
      match doc with
      | .obj fields =>
          match lookupField fields tok with
          | some child => do
              let child' ← ptrAdd child rest v
              .ok (.obj (setField fields tok child'))
          | none => .error ("member not found: " ++ tok)
      | .arr elems =>
          match tokenIndex tok with
          | some i =>
              match elems.get? i with
              | some child => do
                  let child' ← ptrAdd child rest v
                  .ok (.arr (elems.set i child'))
              | none => .error ("array index out of range: " ++ tok)
          | none => .error ("invalid array index: " ++ tok)
      | _ => .error ("cannot resolve token in a scalar: " ++ tok)

/-- `remove` at a pointer (RFC 6902 §4.2): the target location must
exist; removing the root is an error. -/
def ptrRemove : Json → List String → Except String Json
  | _, [] => .error "cannot remove the root"
  | .obj fields, [tok] =>
      match lookupField fields tok with
      | some _ => .ok (.obj (removeField fields tok))
      | none => .error ("member not found: " ++ tok)
  | .arr elems, [tok] =>
      match tokenIndex tok with
      | some i =>
          if i < elems.length then .ok (.arr (elems.eraseIdx i))
          else .error ("array index out of range: " ++ tok)
      | none => .error ("invalid array index: " ++ tok)
  | doc, tok :: rest =>
      match doc with
      | .obj fields =>
          match lookupField fields tok with
          | some child => do
              let child' ← ptrRemove child rest
              .ok (.obj (setField fields tok child'))
          | none => .error ("member not found: " ++ tok)
      | .arr elems =>
          match tokenIndex tok with
          | some i =>
              match elems.get? i with
              | some child => do
                  let child' ← ptrRemove child rest
                  .ok (.arr (elems.set i child'))
              | none => .error ("array index out of range: " ++ tok)
          | none => .error ("invalid array index: " ++ tok)
      | _ => .error ("cannot resolve token in a scalar: " ++ tok)

/-- `replace` (RFC 6902 §4.3): the target location must exist. -/
def ptrReplace (doc : Json) (path : List String) (v : Json) :
    Except String Json := do
  let _ ← ptrGet doc path
  match path with
  | [] => .ok v
  | _ => do
      let removed ← ptrRemove doc path
      ptrAdd removed path v

/-- One RFC 6902 operation on a document. -/
def applyOp (doc : Json) : PatchOp → Except String Json
  | .add path v => ptrAdd doc path v
  | .remove path => ptrRemove doc path
  | .replace path v => ptrReplace doc path v
  | .move src path =>
      if src = path then .ok doc
      else if src.isPrefixOf path then
        .error "cannot move a value into one of its children"
      else do
        let v ← ptrGet doc src
        let removed ← ptrRemove doc src
        ptrAdd removed path v
  | .copy src path => do
      let v ← ptrGet doc src
      ptrAdd doc path v
  | .test path v => do
      let actual ← ptrGet doc path
      if jsonEq actual v then .ok doc
      else .error "test operation failed"

/-- `jsonpatch.apply_patch(doc, operations)`: the operations in order;
the first failure aborts the whole patch. -/
def apply_patch (doc : Json) : List PatchOp → Except String Json
  | [] => .ok doc
  | op :: rest => do
      let doc' ← applyOp doc op
      apply_patch doc' rest

/-! ## Document-content store
(`adapters/document_content_adapter.py`)

Table `document_content`: `document_id` (PK) → `content` (JSON).  The
serialise/deserialise round trip (`json.dumps` on write, `json.loads`
on read, `deepcopy` both ways) is the identity on the modelled values,
so rows hold `Json` directly. -/

abbrev ContentStore := List (Nat × Json)

/-- The empty JSON object `{}`. -/
def emptyObj : Json := .obj []

/-- `DocumentContentAdapter.get_content`: the stored object, `{}` when
no row exists. -/
def get_content (store : ContentStore) (document_id : Nat) : Json :=
  match store.find? (fun row => row.1 == document_id) with
  | some row => row.2
  | none => emptyObj

/-- `DocumentContentAdapter.set_content`: upsert
(`INSERT … ON DUPLICATE KEY UPDATE`). -/
def set_content (store : ContentStore) (document_id : Nat) (content : Json) :
    ContentStore :=
  if store.any (fun row => row.1 == document_id) then
    store.map (fun row =>
      if row.1 == document_id then (row.1, content) else row)
  else
    store ++ [(document_id, content)]

/-- Errors raised by `patch_content` (Python `ValueError`s). -/
inductive PatchErr where
  /-- "JSON Patch 应用失败: …" — the patch did not apply. -/
  | applyFailed (msg : String)
  /-- "Patch 结果必须为 JSON 对象" — the result was not a `dict`. -/
  | resultNotObject
deriving Repr, DecidableEq

/-- `DocumentContentAdapter.patch_content`, in state-passing style: the
outcome together with the store after the call.  On any failure the
exception propagates before `set_content` runs, so the store is returned
untouched. -/
def patch_content (store : ContentStore) (document_id : Nat)
    (patch_operations : List PatchOp) : Except PatchErr Json × ContentStore :=
  let current := get_content store document_id
  match apply_patch current patch_operations with
  | .error e => (.error (.applyFailed e), store)
  | .ok new_content =>
      if new_content.isObj then
        (.ok new_content, set_content store document_id new_content)
      else
        (.error .resultNotObject, store)

/-! ## Error taxonomy (spec §7, `infrastructure/exceptions.py`) -/

inductive ErrKind where
  | validation
  | notFound
  | conflict
  | internal
deriving Repr, DecidableEq

/-- HTTP status attached to each business exception class
(`exceptions.py`). -/
def statusCode : ErrKind → Nat
  | .validation => 400
  | .notFound => 404
  | .conflict => 409
  | .internal => 500

/-- How a `patch_content` failure is surfaced.  `patch_content` raises
`ValueError`; the spec's taxonomy (§7) classifies a failed patch as
`ValidationError`, and the transport (`document_router.put_document`)
translates these `ValueError`s — whose messages do not mention a missing
entity — to `ValidationError`. -/
def PatchErr.kind : PatchErr → ErrKind
  | .applyFailed _ => .validation
  | .resultNotObject => .validation

/-! ## Reduction lemmas for the `Except` monad -/

@[simp] theorem except_bind_ok {ε α β : Type _} (a : α)
    (f : α → Except ε β) : (Except.ok a >>= f) = f a := rfl

@[simp] theorem except_bind_error {ε α β : Type _} (e : ε)
    (f : α → Except ε β) :
    ((Except.error e : Except ε α) >>= f) = (Except.error e : Except ε β) :=
  rfl

/-! ## Lemmas about the content store -/

theorem find?_map_set (id : Nat) (v : Json) (l : ContentStore) :
    List.find? (fun r => r.1 == id)
        (l.map (fun row => if row.1 == id then (row.1, v) else row)) =
      (List.find? (fun r => r.1 == id) l).map (fun row => (row.1, v)) := by
  induction l with
  | nil => rfl
  | cons hd tl ih =>
      by_cases h : hd.1 = id
      · simp [List.find?, h]
      · simp only [List.map_cons]
        rw [if_neg (by simp [h])]
        rw [List.find?_cons_of_neg _ (by simp [h]),
          List.find?_cons_of_neg _ (by simp [h])]
        exact ih

theorem get_content_set_content (store : ContentStore) (id : Nat) (v : Json) :
    get_content (set_content store id v) id = v := by
  unfold get_content set_content
  by_cases h : store.any (fun row => row.1 == id)
  · rw [if_pos h, find?_map_set]
    cases hfind : List.find? (fun r : Nat × Json => r.1 == id) store with
    | none =>
        exfalso
        rcases List.any_eq_true.mp h with ⟨x, hx, hpx⟩
        exact (List.find?_eq_none.mp hfind x hx) hpx
    | some row => rfl
  · rw [if_neg h]
    have hnone : List.find? (fun r : Nat × Json => r.1 == id) store = none := by
      rw [List.find?_eq_none]
      intro x hx hpx
      exact h (List.any_eq_true.mpr ⟨x, hx, hpx⟩)
    rw [List.find?_append, hnone]
    simp [List.find?]

/-! ## Claim C1 -/

/-- C1: whenever applying the operation list under the RFC 6902 engine
fails, `patch_content` raises (a `ValueError` surfaced per spec taxonomy
as `ValidationError`) and the stored content for the document is exactly
what it was before the call — no partial application. -/
theorem patch_content_failure_no_partial_application
    (store : ContentStore) (document_id : Nat) (ops : List PatchOp)
    (e : String)
    (h : apply_patch (get_content store document_id) ops = .error e) :
    (patch_content store document_id ops).1 = .error (.applyFailed e) ∧
    PatchErr.kind (.applyFailed e) = .validation ∧
    (patch_content store document_id ops).2 = store ∧
    get_content (patch_content store document_id ops).2 document_id =
      get_content store document_id := by
  simp only [patch_content]
  rw [h]
  exact ⟨rfl, rfl, rfl, rfl⟩

/-- Witness for C1: the patch `[{"op":"test","path":"/x","value":1}]`
against stored content `{"x":2}` fails the `test` op and leaves the
stored row exactly as it was. -/
theorem patch_content_failure_no_partial_application_witness :
    apply_patch (get_content [(1, Json.obj [("x", Json.num 2)])] 1)
        [PatchOp.test ["x"] (Json.num 1)] = .error "test operation failed" ∧
    (patch_content [(1, Json.obj [("x", Json.num 2)])] 1
        [PatchOp.test ["x"] (Json.num 1)]).2 =
      [(1, Json.obj [("x", Json.num 2)])] :=
  ⟨rfl,
   (patch_content_failure_no_partial_application
      [(1, Json.obj [("x", Json.num 2)])] 1
      [PatchOp.test ["x"] (Json.num 1)] "test operation failed" rfl).2.2.1⟩

/-! ## Claim C6 -/

/-- C6: patching with the empty operation list succeeds and returns the
currently stored content unchanged (for any document whose stored
content is a JSON object, which `set_content` guarantees); and after any
successful `patch_content`, `get_content` returns exactly the result of
applying the operations to the content stored before the patch. -/
theorem patch_content_empty_and_get_after_patch
    (store : ContentStore) (document_id : Nat) (ops : List PatchOp)
    (v : Json) :
    ((get_content store document_id).isObj = true →
       (patch_content store document_id []).1 =
           .ok (get_content store document_id) ∧
       get_content (patch_content store document_id []).2 document_id =
         get_content store document_id) ∧
    ((patch_content store document_id ops).1 = .ok v →
       apply_patch (get_content store document_id) ops = .ok v ∧
       get_content (patch_content store document_id ops).2 document_id = v) := by
  constructor
  · intro hobj
    simp only [patch_content, apply_patch]
    rw [hobj]
    simp [get_content_set_content]
  · intro hok
    simp only [patch_content] at hok ⊢
    rcases happ : apply_patch (get_content store document_id) ops with e | new
    · rw [happ] at hok
      exact absurd hok (by simp)
    · rw [happ] at hok
      by_cases hobj : new.isObj = true
      · simp only [hobj, if_true] at hok ⊢
        have hv : new = v := by simpa using hok
        subst hv
        exact ⟨rfl, get_content_set_content store document_id new⟩
      · simp only [hobj, if_false] at hok
        exact absurd hok (by simp)

/-- Witness for C6: with stored content `{"x":2}`, the empty patch
returns `{"x":2}` unchanged, and after `add /y 3` succeeds, `get`
returns `{"x":2,"y":3}` — exactly the patch result. -/
theorem patch_content_empty_and_get_after_patch_witness :
    (get_content [(1, Json.obj [("x", Json.num 2)])] 1).isObj = true ∧
    (patch_content [(1, Json.obj [("x", Json.num 2)])] 1
        [PatchOp.add ["y"] (Json.num 3)]).1 =
      .ok (Json.obj [("x", Json.num 2), ("y", Json.num 3)]) ∧
    get_content (patch_content [(1, Json.obj [("x", Json.num 2)])] 1
        [PatchOp.add ["y"] (Json.num 3)]).2 1 =
      Json.obj [("x", Json.num 2), ("y", Json.num 3)] :=
  ⟨rfl, rfl,
   ((patch_content_empty_and_get_after_patch
        [(1, Json.obj [("x", Json.num 2)])] 1
        [PatchOp.add ["y"] (Json.num 3)]
        (Json.obj [("x", Json.num 2), ("y", Json.num 3)])).2 rfl).2⟩

/-! ## Node domain model (`domains/node.py`) and node table
(`adapters/node_adapter.py`)

Node ids are UUID strings; strings that take part in prefix/concat
reasoning (ids and materialised paths) are modelled as `List Char`.
The repository carries two shapes of caller identity (integer user ids
in the domain dataclass, `(id, name)` string pairs in the adapter rows);
following spec §9 the rows here use the adapter's opaque-string shape. -/

abbrev Chars := List Char

inductive NodeType where
  | application
  | page
  | function
deriving Repr, DecidableEq

/-- `NodeType.get_allowed_parent_types`. -/
def get_allowed_parent_types : NodeType → List (Option NodeType)
  | .application => [none]
  | .page => [some .application]
  | .function => [some .page]

/-- One row of the `project_node` table. -/
structure NodeRow where
  id : Chars
  project_id : Nat
  parent_id : Option Chars
  node_type : NodeType
  name : String
  description : Option String
  path : Chars
  sort : Int
  status : Nat
  document_id : Option Nat
  creator_id : String
  creator_name : String
  created_at : Nat
  editor_id : String
  editor_name : String
  edited_at : Nat
deriving Repr, DecidableEq

abbrev NodeTable := List NodeRow

/-- The path segment contributed by a node: `"/node_" + id`. -/
def nodeSeg (id : Chars) : Chars := "/node_".toList ++ id

/-- Service/adapter failures (Python `ValueError`s, one constructor per
`raise` site). -/
inductive SvcErr where
  /-- "节点不存在: id=…" (`NodeAdapter.get_node_by_id`). -/
  | nodeMissing (id : Chars)
  /-- "项目不存在: id=…" (`ProjectAdapter.get_project_by_id`). -/
  | projectMissing (project_id : Nat)
  /-- "项目已存在应用节点，一个项目只能有一个应用节点". -/
  | rootExists
  /-- "前置节点不能为当前被移动的节点". -/
  | predIsSelf
  /-- "不能将节点移动到其子节点下". -/
  | moveIntoSubtree
  /-- "X 节点必须有父节点" (`validate_parent` with a null parent). -/
  | mustHaveParent (t : NodeType)
  /-- "X 节点不能在 Y 节点下创建" (`validate_parent`). -/
  | badParent (child parent : NodeType)
  /-- "前置节点必须为新父节点下的直接子节点". -/
  | predNotDirectChild
  /-- "前置节点须属于同一项目". -/
  | predDifferentProject
  /-- "页面节点只能在应用节点下创建". -/
  | pageParentNotApplication
  /-- "功能节点只能在页面节点下创建". -/
  | functionParentNotPage
  /-- "节点名称不能为空且不能超过255字符" (`ProjectNode.validate`). -/
  | invalidName
  /-- "项目 ID 不能为空" (`ProjectNode.validate`). -/
  | invalidProjectId
deriving Repr, DecidableEq

/-- `NodeAdapter.get_node_by_id_optional`: `SELECT … WHERE id = %s`,
first matching row. -/
def get_node_by_id_optional (t : NodeTable) (node_id : Chars) :
    Option NodeRow :=
  t.find? (fun r => r.id == node_id)

/-- `NodeAdapter.get_node_by_id`: raises when the row is absent. -/
def get_node_by_id (t : NodeTable) (node_id : Chars) :
    Except SvcErr NodeRow :=
  match get_node_by_id_optional t node_id with
  | some r => .ok r
  | none => .error (.nodeMissing node_id)

/-- `NodeAdapter.get_root_node`:
`WHERE project_id = %s AND parent_id IS NULL AND node_type = 'application'`. -/
def get_root_node (t : NodeTable) (project_id : Nat) : Option NodeRow :=
  t.find? (fun r =>
    r.project_id == project_id && r.parent_id == none
      && r.node_type == NodeType.application)

/-- `COALESCE(MAX(sort), 0)`: SQL `MAX` over an empty set is `NULL`,
coalesced to `0`. -/
def sqlMaxSort : List Int → Int
  | [] => 0
  | x :: xs => xs.foldl max x

/-- `NodeAdapter.get_max_sort`.  The Python guard `if parent_id:` is
string truthiness, so an empty id behaves like `NULL`. -/
def get_max_sort (t : NodeTable) (parent_id : Option Chars)
    (project_id : Nat) : Int :=
  match parent_id with
  | some (c :: cs) =>
      sqlMaxSort ((t.filter
        (fun r => r.parent_id = some (c :: cs))).map (fun r => r.sort))
  | _ =>
      sqlMaxSort ((t.filter
        (fun r => r.project_id = project_id ∧ r.parent_id = none)).map
          (fun r => r.sort))

/-- `NodeAdapter.create_node`: assign the fresh id, compute `path` from
the parent (the Python guard `if node.parent_id:` is string truthiness),
stamp both timestamps, insert.  The inserted row's editor identity falls
back to the creator (`node.editor_id or node.creator_id`). -/
def create_node (t : NodeTable) (node : NodeRow) (fresh_id : Chars)
    (now : Nat) : Except SvcErr (NodeRow × NodeTable) :=
  let insert : Chars → Except SvcErr (NodeRow × NodeTable) := fun path =>
    let row := { node with
      id := fresh_id
      path := path
      created_at := now
      edited_at := now
      editor_id := if node.editor_id = "" then node.creator_id
        else node.editor_id
      editor_name := if node.editor_name = "" then node.creator_name
        else node.editor_name }
    .ok (row, t ++ [row])
  match node.parent_id with
  | some (c :: cs) =>
      match get_node_by_id_optional t (c :: cs) with
      | some parent => insert (parent.path ++ nodeSeg fresh_id)
      | none => .error (.nodeMissing (c :: cs))
  | _ => insert (nodeSeg fresh_id)

/-- `NodeAdapter.update_node_document_id`. -/
def update_node_document_id (t : NodeTable) (node_id : Chars)
    (document_id : Nat) : NodeTable :=
  t.map (fun r =>
    if r.id = node_id then { r with document_id := some document_id } else r)

/-- Per-row effect of the reparenting `UPDATE` in
`update_descendants_path`: `SET path = CONCAT(new_path,
SUBSTRING(path, len(old_path)+1)) WHERE path LIKE '<old_path>/%' AND
id != node_id`.  `LIKE` with this pattern is a prefix match on real
materialised paths (the `_` wildcard inside `node_` only ever aligns
with a literal `_`), and the 1-indexed `SUBSTRING(path, n+1)` drops the
first `n` characters. -/
def reparentRow (node_id : Chars) (old_path new_path : Chars)
    (r : NodeRow) : NodeRow :=
  if (old_path ++ ['/']).isPrefixOf r.path ∧ r.id ≠ node_id then
    { r with path := new_path ++ r.path.drop old_path.length }
  else r

/-- `NodeAdapter.update_descendants_path`: the reparenting `UPDATE`
applied to every row. -/
def update_descendants_path (t : NodeTable) (node_id : Chars)
    (old_path new_path : Chars) : NodeTable :=
  t.map (reparentRow node_id old_path new_path)

/-- Per-row effect of the make-room `UPDATE` in `move_node` when the
new parent is non-null: `SET sort = sort + 1 WHERE parent_id = %s AND
id != %s AND sort >= %s`. -/
def shiftRowChild (pid node_id : Chars) (new_sort : Int)
    (r : NodeRow) : NodeRow :=
  if r.parent_id = some pid ∧ r.id ≠ node_id ∧ new_sort ≤ r.sort then
    { r with sort := r.sort + 1 }
  else r

/-- Per-row effect of the make-room `UPDATE` in `move_node` when the
new parent is null: `SET sort = sort + 1 WHERE project_id = %s AND
parent_id IS NULL AND id != %s AND sort >= %s`. -/
def shiftRowRoot (project_id : Nat) (node_id : Chars) (new_sort : Int)
    (r : NodeRow) : NodeRow :=
  if r.project_id = project_id ∧ r.parent_id = none ∧ r.id ≠ node_id
      ∧ new_sort ≤ r.sort then
    { r with sort := r.sort + 1 }
  else r

/-- Per-row effect of the `UPDATE` that rewrites the moved row:
`SET parent_id = %s, path = %s, sort = %s, editor_id = %s,
editor_name = %s, edited_at = %s WHERE id = %s`. -/
def moveRow (node_id : Chars) (new_parent_id : Option Chars)
    (new_path : Chars) (new_sort : Int) (editor_id editor_name : String)
    (now : Nat) (r : NodeRow) : NodeRow :=
  if r.id = node_id then
    { r with
      parent_id := new_parent_id
      path := new_path
      sort := new_sort
      editor_id := editor_id
      editor_name := editor_name
      edited_at := now }
  else r

/-- `NodeAdapter.move_node`: load the node, compute the new path (the
guard `if new_parent_id:` is string truthiness), shift the new siblings
with `sort ≥ new_sort` up by one (the guard here is
`if new_parent_id is not None:`), rewrite the moved row, then reparent
all descendants. -/
def NodeAdapter.move_node (t : NodeTable) (node_id : Chars)
    (new_parent_id : Option Chars) (new_sort : Int)
    (editor_id : String := "") (editor_name : String := "")
    (now : Nat := 0) : Except SvcErr (NodeRow × NodeTable) := do
  let node ← get_node_by_id t node_id
  let old_path := node.path
  let new_path ←
    match new_parent_id with
    | some (c :: cs) =>
        match get_node_by_id_optional t (c :: cs) with
        | some parent => Except.ok (parent.path ++ nodeSeg node.id)
        | none => Except.error (SvcErr.nodeMissing (c :: cs))
    | _ => Except.ok (nodeSeg node.id)
  let t1 : NodeTable :=
    match new_parent_id with
    | some pid => t.map (shiftRowChild pid node_id new_sort)
    | none => t.map (shiftRowRoot node.project_id node_id new_sort)
  let t2 := t1.map (moveRow node_id new_parent_id new_path new_sort
    editor_id editor_name now)
  let t3 := update_descendants_path t2 node_id old_path new_path
  .ok ({ node with
    parent_id := new_parent_id
    path := new_path
    sort := new_sort
    editor_id := editor_id
    editor_name := editor_name
    edited_at := now }, t3)

/-- `ProjectNode.validate`: the Python guards are `if not self.name or
len(self.name) > 255` and `if not self.project_id`. -/
def validate_node (name : String) (project_id : Nat) :
    Except SvcErr Unit :=
  if name = "" ∨ name.length > 255 then .error .invalidName
  else if project_id = 0 then .error .invalidProjectId
  else .ok ()

/-- `ProjectNode.validate_parent`. -/
def validate_parent (node_type : NodeType) (parent : Option NodeRow) :
    Except SvcErr Unit :=
  let allowed := get_allowed_parent_types node_type
  match parent with
  | none =>
      if none ∈ allowed then .ok ()
      else .error (.mustHaveParent node_type)
  | some p =>
      if some p.node_type ∈ allowed then .ok ()
      else .error (.badParent node_type p.node_type)

/-! ## Node service (`application/node_service.py`) -/

/-- `NodeService.create_application_node`: verify the project exists,
reject when a root already exists, build the root node (`parent_id =
null`, `sort = 0`; `__post_init__` defaults the editor identity to the
creator), validate, insert.  The project table is modelled by its list
of ids, which is all `get_project_by_id` is used for here. -/
def NodeService.create_application_node (projects : List Nat)
    (t : NodeTable) (project_id : Nat) (name : String)
    (description : Option String) (creator_id creator_name : String)
    (fresh_id : Chars) (now : Nat) :
    Except SvcErr (NodeRow × NodeTable) := do
  let _ ← if projects.contains project_id then Except.ok ()
    else Except.error (SvcErr.projectMissing project_id)
  let _ ← match get_root_node t project_id with
    | some _ => Except.error SvcErr.rootExists
    | none => Except.ok ()
  let node : NodeRow :=
    { id := [], project_id := project_id, parent_id := none
      node_type := .application, name := name, description := description
      path := [], sort := 0, status := 1, document_id := none
      creator_id := creator_id, creator_name := creator_name
      created_at := 0, editor_id := creator_id
      editor_name := creator_name, edited_at := 0 }
  let _ ← validate_node node.name node.project_id
  create_node t node fresh_id now

/-- `node_router.create_application_node`: every `ValueError` from the
service is re-raised as `ValidationError(code="INVALID_REQUEST")`
(this handler has no not-found branch). -/
def createApplicationSurfaced : SvcErr → ErrKind := fun _ => .validation

/-- `NodeService.create_page_node`: parent must exist and be an
application node; `sort = get_max_sort(parent_id, project_id) + 1`. -/
def NodeService.create_page_node (t : NodeTable) (project_id : Nat)
    (parent_id : Chars) (name : String) (description : Option String)
    (creator_id creator_name : String) (fresh_id : Chars) (now : Nat) :
    Except SvcErr (NodeRow × NodeTable) := do
  let parent ← get_node_by_id t parent_id
  let _ ← if parent.node_type ≠ NodeType.application then
      Except.error SvcErr.pageParentNotApplication
    else Except.ok ()
  let max_sort := get_max_sort t (some parent_id) project_id
  let node : NodeRow :=
    { id := [], project_id := project_id, parent_id := some parent_id
      node_type := .page, name := name, description := description
      path := [], sort := max_sort + 1, status := 1, document_id := none
      creator_id := creator_id, creator_name := creator_name
      created_at := 0, editor_id := creator_id
      editor_name := creator_name, edited_at := 0 }
  let _ ← validate_node node.name node.project_id
  let _ ← validate_parent node.node_type (some parent)
  create_node t node fresh_id now

/-- One row of the `function_document` table. -/
structure FunctionDocRow where
  id : Nat
  function_node_id : Chars
  creator_id : String
  creator_name : String
  created_at : Nat
  editor_id : String
  editor_name : String
  edited_at : Nat
deriving Repr, DecidableEq

/-- `NodeService.create_function_node`: parent must exist and be a page
node; `sort = get_max_sort(parent_id, project_id) + 1`; then the
companion `FunctionDocument` is created (`fresh_doc_id` standing for
`lastrowid`), its content initialised to `{}`, and the `document_id`
written back onto the node. -/
def NodeService.create_function_node (t : NodeTable)
    (docs : List FunctionDocRow) (contents : ContentStore)
    (project_id : Nat) (parent_id : Chars) (name : String)
    (description : Option String) (creator_id creator_name : String)
    (fresh_id : Chars) (fresh_doc_id : Nat) (now : Nat) :
    Except SvcErr (NodeRow × NodeTable × List FunctionDocRow × ContentStore) := do
  let parent ← get_node_by_id t parent_id
  let _ ← if parent.node_type ≠ NodeType.page then
      Except.error SvcErr.functionParentNotPage
    else Except.ok ()
  let max_sort := get_max_sort t (some parent_id) project_id
  let node : NodeRow :=
    { id := [], project_id := project_id, parent_id := some parent_id
      node_type := .function, name := name, description := description
      path := [], sort := max_sort + 1, status := 1, document_id := none
      creator_id := creator_id, creator_name := creator_name
      created_at := 0, editor_id := creator_id
      editor_name := creator_name, edited_at := 0 }
  let _ ← validate_node node.name node.project_id
  let _ ← validate_parent node.node_type (some parent)
  let (created, t1) ← create_node t node fresh_id now
  let doc : FunctionDocRow :=
    { id := fresh_doc_id, function_node_id := created.id
      creator_id := creator_id, creator_name := creator_name
      created_at := now, editor_id := creator_id
      editor_name := creator_name, edited_at := now }
  let docs1 := docs ++ [doc]
  let contents1 := set_content contents fresh_doc_id emptyObj
  let t2 := update_node_document_id t1 created.id fresh_doc_id
  .ok ({ created with document_id := some fresh_doc_id }, t2, docs1, contents1)

/-- The `new_sort` computation of `NodeService.move_node`: `0` without
a predecessor, else `predecessor.sort + 1` after checking the
predecessor is a direct child of the new parent in the same project. -/
def predecessor_sort (t : NodeTable) (predecessor_node_id : Option Chars)
    (new_parent_id : Option Chars) (node : NodeRow) :
    Except SvcErr Int :=
  match predecessor_node_id with
  | none => .ok 0
  | some pred_id => do
      let predecessor ← get_node_by_id t pred_id
      if predecessor.parent_id ≠ new_parent_id then
        Except.error SvcErr.predNotDirectChild
      else if predecessor.project_id ≠ node.project_id then
        Except.error SvcErr.predDifferentProject
      else Except.ok (predecessor.sort + 1)

/-- `NodeService.move_node`: load the node; reject a predecessor equal
to the moved node; for a (truthy) new parent, load it, run
`validate_parent`, and reject when the target parent's path starts with
the moved node's path; for a null parent only application nodes pass.
`new_sort` comes from `predecessor_sort`.  The final delegation
(`node_service.py:333`) passes no editor identity, so the adapter's
empty-string defaults are used; the `editor` argument is accepted but
never forwarded. -/
def NodeService.move_node (t : NodeTable) (node_id : Chars)
    (new_parent_id : Option Chars) (predecessor_node_id : Option Chars)
    (editor : Int := 0) (now : Nat := 0) :
    Except SvcErr (NodeRow × NodeTable) := do
  let node ← get_node_by_id t node_id
  let _ ← if predecessor_node_id = some node_id then
      Except.error SvcErr.predIsSelf
    else Except.ok ()
  let _ ←
    match new_parent_id with
    | some (c :: cs) => do
        let new_parent ← get_node_by_id t (c :: cs)
        let _ ← validate_parent node.node_type (some new_parent)
        if node.path.isPrefixOf new_parent.path then
          Except.error SvcErr.moveIntoSubtree
        else Except.ok ()
    | _ =>
        if node.node_type ≠ NodeType.application then
          Except.error (SvcErr.mustHaveParent node.node_type)
        else Except.ok ()
  let new_sort : Int ←
    predecessor_sort t predecessor_node_id new_parent_id node
  NodeAdapter.move_node t node_id new_parent_id new_sort "" "" now

/-- `node_router.move_node`: a `ValueError` whose message mentions a
missing entity ("不存在") becomes `NotFoundError`, every other one
becomes `ValidationError`. -/
def moveSurfaced : SvcErr → ErrKind
  | .nodeMissing _ => .notFound
  | .projectMissing _ => .notFound
  | _ => .validation

/-- State-passing wrapper for `NodeService.move_node`: on an exception
nothing has been written, so the table is returned unchanged. -/
def NodeService.move_node_run (t : NodeTable) (node_id : Chars)
    (new_parent_id : Option Chars) (predecessor_node_id : Option Chars)
    (editor : Int := 0) (now : Nat := 0) :
    Except SvcErr NodeRow × NodeTable :=
  match NodeService.move_node t node_id new_parent_id predecessor_node_id
      editor now with
  | .ok (n, t') => (.ok n, t')
  | .error e => (.error e, t)

/-! ## A concrete project fixture

One project (id 1) holding an application root `a`, two pages `p`, `q`
under it, and a function `f` under page `p` — the shape of spec §8's
end-to-end scenarios.  Used by witnesses and counterexamples. -/

def rowA : NodeRow :=
  { id := ['a'], project_id := 1, parent_id := none
    node_type := .application, name := "App", description := none
    path := nodeSeg ['a'], sort := 0, status := 1, document_id := none
    creator_id := "u", creator_name := "U", created_at := 0
    editor_id := "u", editor_name := "U", edited_at := 0 }

def rowP : NodeRow :=
  { id := ['p'], project_id := 1, parent_id := some ['a']
    node_type := .page, name := "Home", description := none
    path := nodeSeg ['a'] ++ nodeSeg ['p'], sort := 1, status := 1
    document_id := none, creator_id := "u", creator_name := "U"
    created_at := 0, editor_id := "u", editor_name := "U", edited_at := 0 }

def rowQ : NodeRow :=
  { id := ['q'], project_id := 1, parent_id := some ['a']
    node_type := .page, name := "Settings", description := none
    path := nodeSeg ['a'] ++ nodeSeg ['q'], sort := 2, status := 1
    document_id := none, creator_id := "u", creator_name := "U"
    created_at := 0, editor_id := "u", editor_name := "U", edited_at := 0 }

def rowF : NodeRow :=
  { id := ['f'], project_id := 1, parent_id := some ['p']
    node_type := .function, name := "Login", description := none
    path := nodeSeg ['a'] ++ nodeSeg ['p'] ++ nodeSeg ['f'], sort := 1
    status := 1, document_id := some 1, creator_id := "u"
    creator_name := "U", created_at := 0, editor_id := "u"
    editor_name := "U", edited_at := 0 }

def sampleT : NodeTable := [rowA, rowP, rowQ, rowF]

/-! ## Claim C5 -/

/-- Counterexample for C5: with a root already present, a second
`create_application_node` does fail, but the error surfaced by the
transport is `ValidationError` (HTTP 400, the router's blanket
`ValueError → ValidationError(code="INVALID_REQUEST")` translation),
not `Conflict` (HTTP 409). -/
theorem create_application_duplicate_not_conflict :
    NodeService.create_application_node [1] sampleT 1 "App2" none
        "u" "U" ['z'] 7 = .error .rootExists ∧
    statusCode (createApplicationSurfaced .rootExists) = 400 ∧
    ¬ statusCode (createApplicationSurfaced .rootExists) = 409 :=
  ⟨rfl, rfl, by decide⟩

/-- C5 as amended: for every project that already has a root node, a
second `create_application_node` call fails with the
root-already-exists error, surfaced as `ValidationError` with HTTP
status 400. -/
theorem create_application_duplicate_validation_400
    (projects : List Nat) (t : NodeTable) (project_id : Nat)
    (name : String) (description : Option String)
    (creator_id creator_name : String) (fresh_id : Chars) (now : Nat)
    (r : NodeRow)
    (hproj : projects.contains project_id = true)
    (hroot : get_root_node t project_id = some r) :
    NodeService.create_application_node projects t project_id name
        description creator_id creator_name fresh_id now =
      .error .rootExists ∧
    createApplicationSurfaced .rootExists = .validation ∧
    statusCode (createApplicationSurfaced .rootExists) = 400 := by
  refine ⟨?_, rfl, rfl⟩
  simp only [NodeService.create_application_node, hproj, hroot]
  rfl

/-- Witness for C5's amended theorem, on the fixture project. -/
theorem create_application_duplicate_validation_400_witness :
    List.contains [1] 1 = true ∧
    get_root_node sampleT 1 = some rowA ∧
    NodeService.create_application_node [1] sampleT 1 "App2" none
        "u" "U" ['z'] 7 = .error .rootExists :=
  ⟨rfl, rfl,
   (create_application_duplicate_validation_400 [1] sampleT 1 "App2"
      none "u" "U" ['z'] 7 rowA rfl rfl).1⟩

/-! ## Claim C8 -/

/-- C8 fails on the code: `NodeService.move_node` accepts the `editor`
argument but does not forward it to `NodeAdapter.move_node`
(`node_service.py:333`), so the adapter's empty-string defaults are
stored.  At the failing input below — moving function `f` under page
`q` with caller editor `42` — the move succeeds, `edited_at` is indeed
updated to `now = 9`, but the stored editor identity is the empty
string rather than the caller's. -/
theorem move_node_editor_identity_dropped :
    (NodeService.move_node sampleT ['f'] (some ['q']) none 42 9).map
        (fun p => (p.1.editor_id, p.1.editor_name, p.1.edited_at)) =
      .ok ("", "", 9) :=
  rfl

/-! ## Claim C7 -/

/-- C7: moving a node under a target parent that lies inside the node's
own subtree (the target's `path` starts with the node's `path`) is
always rejected — the service raises a `ValueError` surfaced as
`ValidationError`, before any write — and the node table is unchanged.
(The rejection is raised either by the type-grammar check
`validate_parent` or by the own-subtree check; both are
`ValidationError`s.) -/
theorem move_into_own_subtree_rejected
    (t : NodeTable) (node_id : Chars) (c : Char) (cs : Chars)
    (pred : Option Chars) (editor : Int) (now : Nat)
    (node p : NodeRow)
    (hnode : get_node_by_id t node_id = .ok node)
    (hparent : get_node_by_id t (c :: cs) = .ok p)
    (hpre : node.path.isPrefixOf p.path = true) :
    (∃ e, NodeService.move_node t node_id (some (c :: cs)) pred editor
        now = .error e ∧ moveSurfaced e = .validation) ∧
    (NodeService.move_node_run t node_id (some (c :: cs)) pred editor
        now).2 = t := by
  have key : ∃ e, NodeService.move_node t node_id (some (c :: cs)) pred
      editor now = .error e ∧ moveSurfaced e = .validation := by
    simp only [NodeService.move_node, hnode, except_bind_ok]
    by_cases hps : pred = some node_id
    · refine ⟨.predIsSelf, ?_, rfl⟩
      simp [hps]
    · rw [if_neg hps]
      simp only [except_bind_ok, hparent]
      rcases hvp : validate_parent node.node_type (some p) with e | u
      · refine ⟨e, by simp, ?_⟩
        have : e = .badParent node.node_type p.node_type := by
          by_cases hc : some p.node_type ∈
              get_allowed_parent_types node.node_type
          · simp only [validate_parent, if_pos hc] at hvp
            exact absurd hvp (by simp)
          · simp only [validate_parent, if_neg hc] at hvp
            exact (Except.error.inj hvp).symm
        rw [this]
        rfl
      · refine ⟨.moveIntoSubtree, ?_, rfl⟩
        simp [hpre]
  rcases key with ⟨e, he, hk⟩
  refine ⟨⟨e, he, hk⟩, ?_⟩
  simp [NodeService.move_node_run, he]

/-- Witness for C7: moving page `p` under function `f` (which sits in
`p`'s own subtree) on the fixture project. -/
theorem move_into_own_subtree_rejected_witness :
    get_node_by_id sampleT ['p'] = .ok rowP ∧
    get_node_by_id sampleT ['f'] = .ok rowF ∧
    List.isPrefixOf rowP.path rowF.path = true ∧
    (NodeService.move_node_run sampleT ['p'] (some ['f']) none 0 3).2 =
      sampleT :=
  ⟨rfl, rfl, by decide,
   (move_into_own_subtree_rejected sampleT ['p'] 'f' [] none 0 3
      rowP rowF rfl rfl (by decide)).2⟩

/-! ## Claim C10 -/

/-- C10: every newly created page or function node receives
`sort = get_max_sort(parent) + 1`; since `get_max_sort` coalesces the
missing maximum to 0, a parent with no existing direct children hands
the new node `sort = 1`, not 0. -/
theorem created_node_sort_max_plus_one
    (t : NodeTable) (project_id : Nat) (parent_id : Chars)
    (name : String) (description : Option String)
    (creator_id creator_name : String) (fresh_id : Chars) (now : Nat)
    (hne : parent_id ≠ []) :
    (∀ n t', NodeService.create_page_node t project_id parent_id name
        description creator_id creator_name fresh_id now = .ok (n, t') →
      n.sort = get_max_sort t (some parent_id) project_id + 1 ∧
      ((∀ r ∈ t, r.parent_id ≠ some parent_id) → n.sort = 1)) ∧
    (∀ docs contents fresh_doc_id n rest,
      NodeService.create_function_node t docs contents project_id
          parent_id name description creator_id creator_name fresh_id
          fresh_doc_id now = .ok (n, rest) →
      n.sort = get_max_sort t (some parent_id) project_id + 1 ∧
      ((∀ r ∈ t, r.parent_id ≠ some parent_id) → n.sort = 1)) := by
  rcases parent_id with _ | ⟨c, cs⟩
  · exact absurd rfl hne
  have hmax0 : (∀ r ∈ t, r.parent_id ≠ some (c :: cs)) →
      get_max_sort t (some (c :: cs)) project_id = 0 := by
    intro hno
    have hfil : t.filter (fun r => r.parent_id = some (c :: cs)) = [] := by
      rw [List.filter_eq_nil_iff]
      intro r hr
      simpa using hno r hr
    simp only [get_max_sort, hfil]
    rfl
  constructor
  · intro n t' hok
    have hsort : n.sort = get_max_sort t (some (c :: cs)) project_id + 1 := by
      revert hok
      simp only [NodeService.create_page_node]
      rcases get_node_by_id t (c :: cs) with e | parent
      · intro h
        exact absurd h (by simp)
      · simp only [except_bind_ok]
        split
        · intro h
          exact absurd h (by simp)
        · rcases hv : validate_node name project_id with e | u
          · intro h
            exact absurd h (by simp)
          · rcases hvp : validate_parent NodeType.page (some parent)
              with e | u
            · intro h
              exact absurd h (by simp)
            · simp only [except_bind_ok, create_node]
              rcases get_node_by_id_optional t (c :: cs) with _ | par
              · intro h
                exact absurd h (by simp)
              · intro h
                have h' := Except.ok.inj h
                have hs := congrArg (fun x => x.1.sort) h'
                simp only at hs
                exact hs.symm
    exact ⟨hsort, fun hno => by rw [hsort, hmax0 hno]; rfl⟩
  · intro docs contents fresh_doc_id n rest hok
    have hsort : n.sort = get_max_sort t (some (c :: cs)) project_id + 1 := by
      revert hok
      simp only [NodeService.create_function_node]
      rcases get_node_by_id t (c :: cs) with e | parent
      · intro h
        exact absurd h (by simp)
      · simp only [except_bind_ok]
        split
        · intro h
          exact absurd h (by simp)
        · rcases hv : validate_node name project_id with e | u
          · intro h
            exact absurd h (by simp)
          · rcases hvp : validate_parent NodeType.function (some parent)
              with e | u
            · intro h
              exact absurd h (by simp)
            · simp only [except_bind_ok, create_node]
              rcases get_node_by_id_optional t (c :: cs) with _ | par
              · intro h
                exact absurd h (by simp)
              · intro h
                have h' := Except.ok.inj h
                have hs := congrArg (fun x => x.1.sort) h'
                simp only at hs
                exact hs.symm
    exact ⟨hsort, fun hno => by rw [hsort, hmax0 hno]; rfl⟩

/-! ## Claim C2 -/

/-- `reparentRow` only ever touches the `path` field. -/
theorem reparentRow_id {node_id old_path new_path : Chars}
    (r : NodeRow) : (reparentRow node_id old_path new_path r).id = r.id := by
  unfold reparentRow
  split <;> rfl

theorem reparentRow_parent {node_id old_path new_path : Chars}
    (r : NodeRow) :
    (reparentRow node_id old_path new_path r).parent_id = r.parent_id := by
  unfold reparentRow
  split <;> rfl

theorem reparentRow_sort {node_id old_path new_path : Chars}
    (r : NodeRow) :
    (reparentRow node_id old_path new_path r).sort = r.sort := by
  unfold reparentRow
  split <;> rfl

theorem shiftRowChild_pos {pid node_id : Chars} {new_sort : Int}
    {r : NodeRow}
    (h : r.parent_id = some pid ∧ r.id ≠ node_id ∧ new_sort ≤ r.sort) :
    shiftRowChild pid node_id new_sort r = { r with sort := r.sort + 1 } :=
  if_pos h

theorem shiftRowChild_neg {pid node_id : Chars} {new_sort : Int}
    {r : NodeRow}
    (h : ¬(r.parent_id = some pid ∧ r.id ≠ node_id ∧ new_sort ≤ r.sort)) :
    shiftRowChild pid node_id new_sort r = r :=
  if_neg h

theorem moveRow_eq {node_id : Chars} {new_parent_id : Option Chars}
    {new_path : Chars} {new_sort : Int} {eid ename : String} {now : Nat}
    {r : NodeRow} (h : r.id = node_id) :
    moveRow node_id new_parent_id new_path new_sort eid ename now r =
      { r with
        parent_id := new_parent_id, path := new_path, sort := new_sort
        editor_id := eid, editor_name := ename, edited_at := now } :=
  if_pos h

theorem moveRow_ne {node_id : Chars} {new_parent_id : Option Chars}
    {new_path : Chars} {new_sort : Int} {eid ename : String} {now : Nat}
    {r : NodeRow} (h : ¬ r.id = node_id) :
    moveRow node_id new_parent_id new_path new_sort eid ename now r = r :=
  if_neg h

theorem reparentRow_neg {node_id old_path new_path : Chars} {r : NodeRow}
    (h : ¬((old_path ++ ['/']).isPrefixOf r.path ∧ r.id ≠ node_id)) :
    reparentRow node_id old_path new_path r = r :=
  if_neg h

/-- C2: after a successful `NodeAdapter.move_node` onto parent `pid`,
row by row (`Forall₂` relates the old table to the new one pointwise):
every pre-existing direct child of `pid` other than the moved node whose
sort was `≥ new_sort` has its sort incremented by exactly one, every
other unmoved row keeps its sort and its parent, the moved node ends
with `parent_id = pid` and `sort = new_sort` (so at a sort tie the
existing sibling shifts and the incoming node takes the slot), and the
relative sort order of the pre-existing siblings is preserved. -/
theorem move_node_makes_room
    (t : NodeTable) (node_id pid : Chars) (new_sort : Int)
    (editor_id editor_name : String) (now : Nat) (n' : NodeRow)
    (t' : NodeTable)
    (hok : NodeAdapter.move_node t node_id (some pid) new_sort editor_id
        editor_name now = .ok (n', t')) :
    n'.parent_id = some pid ∧ n'.sort = new_sort ∧
    List.Forall₂ (fun r r' =>
      r'.id = r.id ∧
      (r.id = node_id → r'.parent_id = some pid ∧ r'.sort = new_sort) ∧
      (r.id ≠ node_id →
        r'.parent_id = r.parent_id ∧
        ((r.parent_id = some pid ∧ new_sort ≤ r.sort) →
          r'.sort = r.sort + 1) ∧
        (¬(r.parent_id = some pid ∧ new_sort ≤ r.sort) →
          r'.sort = r.sort))) t t' ∧
    (∀ (i j : Nat) (ri rj ri' rj' : NodeRow),
      t[i]? = some ri → t[j]? = some rj →
      t'[i]? = some ri' → t'[j]? = some rj' →
      ri.parent_id = some pid → rj.parent_id = some pid →
      ri.id ≠ node_id → rj.id ≠ node_id →
      (ri.sort ≤ rj.sort → ri'.sort ≤ rj'.sort) ∧
      (ri.sort < rj.sort → ri'.sort < rj'.sort)) := by
  revert hok
  simp only [NodeAdapter.move_node]
  rcases hn : get_node_by_id t node_id with e | node
  · intro h
    exact absurd h (by simp)
  simp only [except_bind_ok]
  have key : ∀ (old_path new_path : Chars) (T' : NodeTable),
      T' = update_descendants_path
          ((t.map (shiftRowChild pid node_id new_sort)).map
            (moveRow node_id (some pid) new_path new_sort editor_id
              editor_name now))
          node_id old_path new_path →
      List.Forall₂ (fun r r' =>
        r'.id = r.id ∧
        (r.id = node_id → r'.parent_id = some pid ∧ r'.sort = new_sort) ∧
        (r.id ≠ node_id →
          r'.parent_id = r.parent_id ∧
          ((r.parent_id = some pid ∧ new_sort ≤ r.sort) →
            r'.sort = r.sort + 1) ∧
          (¬(r.parent_id = some pid ∧ new_sort ≤ r.sort) →
            r'.sort = r.sort))) t T' ∧
      (∀ (i j : Nat) (ri rj ri' rj' : NodeRow),
        t[i]? = some ri → t[j]? = some rj →
        T'[i]? = some ri' → T'[j]? = some rj' →
        ri.parent_id = some pid → rj.parent_id = some pid →
        ri.id ≠ node_id → rj.id ≠ node_id →
        (ri.sort ≤ rj.sort → ri'.sort ≤ rj'.sort) ∧
        (ri.sort < rj.sort → ri'.sort < rj'.sort)) := by
    intro old_path new_path T' hT
    rw [update_descendants_path, List.map_map, List.map_map] at hT
    subst hT
    have hrow : ∀ r : NodeRow,
        ((reparentRow node_id old_path new_path ∘
          (moveRow node_id (some pid) new_path new_sort editor_id
              editor_name now ∘
            shiftRowChild pid node_id new_sort)) r).id = r.id ∧
        (r.id = node_id →
          ((reparentRow node_id old_path new_path ∘
            (moveRow node_id (some pid) new_path new_sort editor_id
                editor_name now ∘
              shiftRowChild pid node_id new_sort)) r).parent_id = some pid ∧
          ((reparentRow node_id old_path new_path ∘
            (moveRow node_id (some pid) new_path new_sort editor_id
                editor_name now ∘
              shiftRowChild pid node_id new_sort)) r).sort = new_sort) ∧
        (r.id ≠ node_id →
          ((reparentRow node_id old_path new_path ∘
            (moveRow node_id (some pid) new_path new_sort editor_id
                editor_name now ∘
              shiftRowChild pid node_id new_sort)) r).parent_id =
            r.parent_id ∧
          ((r.parent_id = some pid ∧ new_sort ≤ r.sort) →
            ((reparentRow node_id old_path new_path ∘
              (moveRow node_id (some pid) new_path new_sort editor_id
                  editor_name now ∘
                shiftRowChild pid node_id new_sort)) r).sort =
              r.sort + 1) ∧
          (¬(r.parent_id = some pid ∧ new_sort ≤ r.sort) →
            ((reparentRow node_id old_path new_path ∘
              (moveRow node_id (some pid) new_path new_sort editor_id
                  editor_name now ∘
                shiftRowChild pid node_id new_sort)) r).sort = r.sort)) := by
      intro r
      simp only [Function.comp]
      by_cases hid : r.id = node_id
      · simp [shiftRowChild, moveRow, reparentRow, hid]
      · by_cases hc : r.parent_id = some pid ∧ new_sort ≤ r.sort
        · simp [shiftRowChild, moveRow, reparentRow_id,
            reparentRow_parent, reparentRow_sort, hid, hc.1, hc.2]
        · rw [shiftRowChild_neg (fun hfull => hc ⟨hfull.1, hfull.2.2⟩),
            moveRow_ne hid]
          simp [reparentRow_id, reparentRow_parent, reparentRow_sort,
            hid, hc]
    constructor
    · rw [List.forall₂_map_right_iff]
      refine List.forall₂_same.mpr (fun r _ => ?_)
      exact hrow r
    · intro i j ri rj ri' rj' hti htj hti' htj' hpi hpj hii hjj
      rw [List.getElem?_map, hti] at hti'
      rw [List.getElem?_map, htj] at htj'
      have hri' := Option.some.inj hti'
      have hrj' := Option.some.inj htj'
      have si : ri'.sort =
          if new_sort ≤ ri.sort then ri.sort + 1 else ri.sort := by
        rw [← hri']
        by_cases h1 : new_sort ≤ ri.sort
        · rw [if_pos h1]
          exact ((hrow ri).2.2 hii).2.1 ⟨hpi, h1⟩
        · rw [if_neg h1]
          exact ((hrow ri).2.2 hii).2.2 (fun hcc => h1 hcc.2)
      have sj : rj'.sort =
          if new_sort ≤ rj.sort then rj.sort + 1 else rj.sort := by
        rw [← hrj']
        by_cases h2 : new_sort ≤ rj.sort
        · rw [if_pos h2]
          exact ((hrow rj).2.2 hjj).2.1 ⟨hpj, h2⟩
        · rw [if_neg h2]
          exact ((hrow rj).2.2 hjj).2.2 (fun hcc => h2 hcc.2)
      constructor <;> intro hle <;> rw [si, sj] <;> split_ifs <;> omega
  rcases pid with _ | ⟨c, cs⟩
  · dsimp only
    intro h
    have hp := Except.ok.inj h
    rw [Prod.mk.injEq] at hp
    obtain ⟨h1, h2⟩ := hp
    subst h1
    subst h2
    exact ⟨rfl, rfl, (key node.path (nodeSeg node.id) _ rfl).1,
      (key node.path (nodeSeg node.id) _ rfl).2⟩
  · dsimp only
    rcases hp : get_node_by_id_optional t (c :: cs) with _ | parent
    · intro h
      exact absurd h (by simp)
    · intro h
      dsimp only at h
      have hpr := Except.ok.inj h
      rw [Prod.mk.injEq] at hpr
      obtain ⟨h1, h2⟩ := hpr
      subst h1
      subst h2
      exact ⟨rfl, rfl,
        (key node.path (parent.path ++ nodeSeg node.id) _ rfl).1,
        (key node.path (parent.path ++ nodeSeg node.id) _ rfl).2⟩

/-- The table produced by the witness move: function `f` moved under
page `q` at the first slot. -/
def movedFW : NodeRow :=
  { rowF with
    parent_id := some ['q'], path := rowQ.path ++ nodeSeg ['f']
    sort := 0, editor_id := "e", editor_name := "E", edited_at := 9 }

/-- Witness for C2: moving function `f` under page `q` at `new_sort = 0`
on the fixture project succeeds, and the moved node lands with
`parent_id = q` and `sort = 0`. -/
theorem move_node_makes_room_witness :
    NodeAdapter.move_node sampleT ['f'] (some ['q']) 0 "e" "E" 9 =
      .ok (movedFW, [rowA, rowP, rowQ, movedFW]) ∧
    movedFW.parent_id = some ['q'] ∧ movedFW.sort = 0 :=
  ⟨rfl,
   (move_node_makes_room sampleT ['f'] ['q'] 0 "e" "E" 9 movedFW
      [rowA, rowP, rowQ, movedFW] rfl).1,
   (move_node_makes_room sampleT ['f'] ['q'] 0 "e" "E" 9 movedFW
      [rowA, rowP, rowQ, movedFW] rfl).2.1⟩

/-- The row `create_page_node` produces on an empty application (page
"Home" under root `a`, fresh id `p`, now = 3). -/
def pageRowW : NodeRow :=
  { id := ['p'], project_id := 1, parent_id := some ['a']
    node_type := .page, name := "Home", description := none
    path := nodeSeg ['a'] ++ nodeSeg ['p'], sort := 1, status := 1
    document_id := none, creator_id := "u", creator_name := "U"
    created_at := 3, editor_id := "u", editor_name := "U", edited_at := 3 }

/-- Witness for C10: creating a page under a root with no children
yields `sort = 1`. -/
theorem created_node_sort_max_plus_one_witness :
    (['a'] : Chars) ≠ [] ∧
    NodeService.create_page_node [rowA] 1 ['a'] "Home" none "u" "U"
        ['p'] 3 = .ok (pageRowW, [rowA, pageRowW]) ∧
    pageRowW.sort = 1 :=
  ⟨by decide, rfl,
   ((created_node_sort_max_plus_one [rowA] 1 ['a'] "Home" none "u" "U"
      ['p'] 3 (by decide)).1 pageRowW [rowA, pageRowW] rfl).2
     (by decide)⟩

/-! ## Readable-text renderer (`utils/tiptap.py`)

The renderer is a pure recursive function over the document JSON.
Python string methods that raise on non-string values (`str.strip`,
joining non-strings, `int()` on a malformed value) are modelled by
`Except`: a Lean `.error` stands for the Python exception. -/

mutual
/-- Size measure for termination of the renderer. -/
def jsonSize : Json → Nat
  | .null => 1
  | .bool _ => 1
  | .num _ => 1
  | .str _ => 1
  | .arr xs => 1 + jsonListSize xs
  | .obj fs => 1 + jsonFieldsSize fs

def jsonListSize : List Json → Nat
  | [] => 0
  | x :: xs => jsonSize x + jsonListSize xs + 1

def jsonFieldsSize : List (String × Json) → Nat
  | [] => 0
  | (_, v) :: fs => jsonSize v + jsonFieldsSize fs + 1
end

theorem lookupField_size (fs : List (String × Json)) (key : String)
    (v : Json) (h : lookupField fs key = some v) :
    jsonSize v ≤ jsonFieldsSize fs := by
  induction fs with
  | nil => exact absurd h (by simp [lookupField])
  | cons hd tl ih =>
      rw [lookupField] at h
      split at h
      · cases Option.some.inj h
        rcases hd with ⟨k, w⟩
        simp only [jsonFieldsSize]
        omega
      · rcases hd with ⟨k, w⟩
        have := ih h
        simp only [jsonFieldsSize]
        omega

/-- `content = doc.get("content"); content if isinstance(content, list)
else []`. -/
def contentList (fs : List (String × Json)) : List Json :=
  match lookupField fs "content" with
  | some (.arr l) => l
  | _ => []

theorem contentList_size (fs : List (String × Json)) :
    jsonListSize (contentList fs) < jsonSize (Json.obj fs) := by
  rw [contentList]
  split
  · next l heq =>
      have := lookupField_size fs "content" (.arr l) heq
      simp only [jsonSize] at this ⊢
      omega
  · simp [jsonListSize, jsonSize]

/-- `doc.get("type") or ""`, collapsed to the selected branch: a falsy
or non-string `type` value selects the same (default) branch as `""`,
since every branch test compares against a non-empty string literal. -/
def typeOf (fs : List (String × Json)) : String :=
  match lookupField fs "type" with
  | some (.str s) => s
  | _ => ""

/-- Python `str.strip()` (Unicode whitespace at both ends). -/
def pyStrip (s : String) : String := s.trim

/-- `n.get("text") or ""` — and the `AttributeError`/`TypeError` a
truthy non-string produces once a string method or `"".join` touches
it. -/
def textRaw (fs : List (String × Json)) : Except String String :=
  match lookupField fs "text" with
  | none => .ok ""
  | some v =>
      if jsonTruthy v then
        match v with
        | .str s => .ok s
        | _ => .error "text payload is not a string"
      else .ok ""

/-- Python `int(x)` on a truthy JSON value. -/
def pyInt : Json → Except String Int
  | .num n => .ok n
  | .bool b => .ok (if b then 1 else 0)
  | .str s =>
      let s' := s.trim
      (match s'.toList with
       | '-' :: ds =>
           match (String.mk ds).toNat? with
           | some n => .ok (-(n : Int))
           | none => .error "invalid literal for int()"
       | _ =>
           match s'.toNat? with
           | some n => .ok (n : Int)
           | none => .error "invalid literal for int()")
  | _ => .error "int() argument must be a string or a number"

/-- `attrs = doc.get("attrs") or {}; if isinstance(attrs, dict):
level = max(1, min(6, int(attrs.get("level") or 1)))` — the clamp is
applied by the caller. -/
def headingLevel (fs : List (String × Json)) : Except String Int :=
  match lookupField fs "attrs" with
  | some (.obj afs) =>
      (match lookupField afs "level" with
       | none => .ok 1
       | some v => if jsonTruthy v then pyInt v else .ok 1)
  | _ => .ok 1

/-- `lang = (attrs.get("language") or "").strip()` under the same
`attrs` handling as `headingLevel`. -/
def langValue (fs : List (String × Json)) : Except String String :=
  match lookupField fs "attrs" with
  | some (.obj afs) =>
      (match lookupField afs "language" with
       | none => .ok ""
       | some v =>
           if jsonTruthy v then
             match v with
             | .str s => .ok s.trim
             | _ => .error "language attribute is not a string"
           else .ok "")
  | _ => .ok ""

/-- `"…".replace("\n\n", "\n")`: left-to-right, non-overlapping. -/
def replaceNNAux : List Char → List Char
  | '\n' :: '\n' :: rest => '\n' :: replaceNNAux rest
  | ch :: rest => ch :: replaceNNAux rest
  | [] => []

def replaceNN (s : String) : String := String.mk (replaceNNAux s.toList)

/-- `raw.replace("\n", "\n  ")`. -/
def indentNewlines (s : String) : String :=
  "\n  ".intercalate (s.splitOn "\n")

/-- `"#" * level`. -/
def hashes (level : Int) : String :=
  String.mk (List.replicate level.toNat '#')

/-- The per-item line loop of `_list_items`: the first line of an item
gets the item prefix, continuation lines get two spaces, and an empty
line stays empty. -/
def itemLines (pre : String) : List String → List String
  | [] => []
  | line :: rest =>
      (if line ≠ "" then pre ++ line else "") :: itemLines "  " rest

mutual
/-- Python `repr`, used by `str(doc)` on list values (approximate for
quote selection inside strings; no claim exercises it). -/
def pyRepr : Json → String
  | .null => "None"
  | .bool b => if b then "True" else "False"
  | .num n => toString n
  | .str s => "\x27" ++ s ++ "\x27"
  | .arr xs => "[" ++ pyReprList xs ++ "]"
  | .obj fs => "\x7b" ++ pyReprFields fs ++ "\x7d"

def pyReprList : List Json → String
  | [] => ""
  | [x] => pyRepr x
  | x :: xs => pyRepr x ++ ", " ++ pyReprList xs

def pyReprFields : List (String × Json) → String
  | [] => ""
  | [(k, v)] => "\x27" ++ k ++ "\x27: " ++ pyRepr v
  | (k, v) :: fs => "\x27" ++ k ++ "\x27: " ++ pyRepr v ++ ", " ++ pyReprFields fs
end

mutual
/-- `tiptap_json_to_readable_text` (`utils/tiptap.py:10`). -/
def tiptap_json_to_readable_text (doc : Json) : Except String String :=
  match doc with
  | .null => .ok ""
  | .obj fs =>
      let node_type := typeOf fs
      let content_list := contentList fs
      if node_type = "text" then
        Except.map pyStrip (textRaw fs)
      else if node_type = "doc" then
        Except.map String.trim (joinBlocks content_list)
      else if node_type = "paragraph" then
        Except.map (fun s => s ++ "\n") (inlineText content_list)
      else if node_type = "heading" then do
        let lvl ← headingLevel fs
        let level := max 1 (min 6 lvl)
        let inner ← inlineText content_list
        Except.ok (hashes level ++ " " ++ inner.trim ++ "\n")
      else if node_type = "bulletList" then do
        let lines ← listItems false 0 content_list
        Except.ok ("\n".intercalate lines ++ "\n")
      else if node_type = "orderedList" then do
        let lines ← listItems true 0 content_list
        Except.ok ("\n".intercalate lines ++ "\n")
      else if node_type = "listItem" then do
        let raw0 ← joinBlocks content_list
        let raw := indentNewlines raw0.trim
        Except.ok (if raw ≠ "" then raw ++ "\n" else "")
      else if node_type = "blockquote" then do
        let raw0 ← joinBlocks content_list
        let raw := raw0.trim
        Except.ok ("\n".intercalate
          ((raw.splitOn "\n").map (fun line => "> " ++ line)) ++ "\n")
      else if node_type = "codeBlock" then do
        let raw ← inlineText content_list
        let lang ← langValue fs
        Except.ok (if lang ≠ "" then
            "```" ++ lang ++ "\n" ++ raw ++ "\n```\n"
          else "```\n" ++ raw ++ "\n```\n")
      else if node_type = "horizontalRule" then
        Except.ok "---\n"
      else
        joinBlocks content_list
  | .bool b => .ok (if b then "True" else "False")
  | .num n => .ok (toString n)
  | .str s => .ok s
  | .arr elems => .ok (pyRepr (.arr elems))
termination_by (jsonSize doc, 0)
decreasing_by
  all_goals simp_wf
  all_goals exact Prod.Lex.left _ _ (contentList_size _)

/-- `_join_blocks`: concatenation of the children's renderings. -/
def joinBlocks : List Json → Except String String
  | [] => .ok ""
  | n :: ns => do
      let s ← tiptap_json_to_readable_text n
      let rest ← joinBlocks ns
      Except.ok (s ++ rest)
termination_by ns => (jsonListSize ns, 0)
decreasing_by
  all_goals simp_wf
  all_goals apply Prod.Lex.left
  all_goals simp [jsonListSize]
  all_goals omega

/-- `_inline_text`: concatenation of the parts, then
`.replace("\n\n", "\n")` on the join. -/
def inlineText (nodes : List Json) : Except String String :=
  Except.map replaceNN (inlineParts nodes)
termination_by (jsonListSize nodes, 1)
decreasing_by
  simp_wf
  exact Prod.Lex.right _ (Nat.lt_succ_self 0)

/-- The part-collection loop of `_inline_text`: non-dicts are skipped,
`text` nodes contribute their payload, `hardBreak` a newline, anything
else its full rendering. -/
def inlineParts : List Json → Except String String
  | [] => .ok ""
  | .obj fs :: ns => do
      let part ←
        if typeOf fs = "text" then textRaw fs
        else if typeOf fs = "hardBreak" then Except.ok "\n"
        else tiptap_json_to_readable_text (.obj fs)
      let rest ← inlineParts ns
      Except.ok (part ++ rest)
  | _ :: ns => inlineParts ns
termination_by ns => (jsonListSize ns, 0)
decreasing_by
  all_goals simp_wf
  all_goals apply Prod.Lex.left
  all_goals simp [jsonListSize]
  all_goals omega

/-- `_list_items`: each item is rendered, stripped, skipped when empty,
and otherwise split into prefixed lines. -/
def listItems (ordered : Bool) (i : Nat) :
    List Json → Except String (List String)
  | [] => .ok []
  | n :: ns => do
      let s ← tiptap_json_to_readable_text n
      let raw := s.trim
      let rest ← listItems ordered (i + 1) ns
      Except.ok (if raw = "" then rest
        else itemLines (if ordered then toString (i + 1) ++ ". " else "- ")
          (raw.splitOn "\n") ++ rest)
termination_by ns => (jsonListSize ns, 0)
decreasing_by
  all_goals simp_wf
  all_goals apply Prod.Lex.left
  all_goals simp [jsonListSize]
  all_goals omega
end

/-! ## Claim C9 -/

/-- C9: the readable-text renderer is a total function of its input
(`tiptap_json_to_readable_text` is a Lean function; Python exceptions
are `.error` values), and on every dict whose `type` is not one of the
ten recognised kinds it falls back to the concatenation of its
children's renderings; consequently a non-rich-text object such as
`{"title": "x"}` (no `type`, no `content`) renders as the empty
string. -/
theorem renderer_unknown_type_concat :
    (∀ fs : List (String × Json),
       typeOf fs ∉ (["text", "doc", "paragraph", "heading", "bulletList",
         "orderedList", "listItem", "blockquote", "codeBlock",
         "horizontalRule"] : List String) →
       tiptap_json_to_readable_text (.obj fs) =
         joinBlocks (contentList fs)) ∧
    tiptap_json_to_readable_text (.obj [("title", .str "x")]) = .ok "" := by
  have main : ∀ fs : List (String × Json),
      typeOf fs ∉ (["text", "doc", "paragraph", "heading", "bulletList",
        "orderedList", "listItem", "blockquote", "codeBlock",
        "horizontalRule"] : List String) →
      tiptap_json_to_readable_text (.obj fs) =
        joinBlocks (contentList fs) := by
    intro fs h
    simp only [List.mem_cons, List.not_mem_nil, or_false, not_or] at h
    obtain ⟨h1, h2, h3, h4, h5, h6, h7, h8, h9, h10⟩ := h
    simp only [tiptap_json_to_readable_text]
    rw [if_neg h1, if_neg h2, if_neg h3, if_neg h4, if_neg h5, if_neg h6,
      if_neg h7, if_neg h8, if_neg h9, if_neg h10]
  refine ⟨main, (main [("title", .str "x")] (by decide)).trans ?_⟩
  have : contentList [("title", .str "x")] = [] := rfl
  rw [this]
  simp only [joinBlocks]

/-- Witness for C9: a dict with the unrecognised type `"custom"`
renders as the concatenation of its children's renderings. -/
theorem renderer_unknown_type_concat_witness :
    typeOf [("type", Json.str "custom")] ∉
      (["text", "doc", "paragraph", "heading", "bulletList",
        "orderedList", "listItem", "blockquote", "codeBlock",
        "horizontalRule"] : List String) ∧
    tiptap_json_to_readable_text (.obj [("type", Json.str "custom")]) =
      joinBlocks (contentList [("type", Json.str "custom")]) :=
  ⟨by decide, renderer_unknown_type_concat.1 [("type", Json.str "custom")]
    (by decide)⟩

/-! ## Claim C3: the materialised-path invariant -/

/-- Spec §3: for every non-root node, `path = parent.path + "/node_" +
id` (witnessed by a parent row in the table); for a root node,
`path = "/node_" + id`. -/
def rowPathOk (t : NodeTable) (r : NodeRow) : Prop :=
  match r.parent_id with
  | none => r.path = nodeSeg r.id
  | some pid => ∃ p, p ∈ t ∧ p.id = pid ∧ r.path = p.path ++ nodeSeg r.id

instance (t : NodeTable) (r : NodeRow) : Decidable (rowPathOk t r) :=
  match hr : r.parent_id with
  | none =>
      decidable_of_iff (r.path = nodeSeg r.id)
        (by unfold rowPathOk; rw [hr])
  | some pid =>
      decidable_of_iff
        (∃ p, p ∈ t ∧ p.id = pid ∧ r.path = p.path ++ nodeSeg r.id)
        (by unfold rowPathOk; rw [hr])

/-- The path invariant over the whole `project_node` table. -/
def pathInv (t : NodeTable) : Prop := ∀ r ∈ t, rowPathOk t r

instance (t : NodeTable) : Decidable (pathInv t) := by
  unfold pathInv
  exact inferInstance

/-- `id` is the primary key of `project_node`. -/
def uniqueIds (t : NodeTable) : Prop :=
  ∀ r1 ∈ t, ∀ r2 ∈ t, r1.id = r2.id → r1 = r2

instance (t : NodeTable) : Decidable (uniqueIds t) := by
  unfold uniqueIds
  exact inferInstance

/-- Materialised paths are unique (they encode the id chain). -/
def uniquePaths (t : NodeTable) : Prop :=
  ∀ r1 ∈ t, ∀ r2 ∈ t, r1.path = r2.path → r1 = r2

instance (t : NodeTable) : Decidable (uniquePaths t) := by
  unfold uniquePaths
  exact inferInstance

/-- Node ids (UUID strings) never contain the path separator. -/
def slashFreeIds (t : NodeTable) : Prop := ∀ r ∈ t, '/' ∉ r.id

instance (t : NodeTable) : Decidable (slashFreeIds t) := by
  unfold slashFreeIds
  exact inferInstance

theorem rowPathOk_intro_none (t : NodeTable) (x : NodeRow)
    (h1 : x.parent_id = none) (h2 : x.path = nodeSeg x.id) :
    rowPathOk t x := by
  unfold rowPathOk
  rw [h1]
  exact h2

theorem rowPathOk_intro_some (t : NodeTable) (x : NodeRow) (pid : Chars)
    (h1 : x.parent_id = some pid) (p : NodeRow) (hp : p ∈ t)
    (hpid : p.id = pid) (hpath : x.path = p.path ++ nodeSeg x.id) :
    rowPathOk t x := by
  unfold rowPathOk
  rw [h1]
  exact ⟨p, hp, hpid, hpath⟩

theorem nodeSeg_eq_cons (id : Chars) :
    nodeSeg id = '/' :: ('n' :: 'o' :: 'd' :: 'e' :: '_' :: id) := by
  have : "/node_".toList = ['/', 'n', 'o', 'd', 'e', '_'] := by decide
  rw [nodeSeg, this]
  rfl

theorem nodeSeg_ne_nil (id : Chars) : nodeSeg id ≠ [] := by
  rw [nodeSeg_eq_cons]
  exact List.cons_ne_nil _ _

/-- A nonempty string followed by `/` is never a prefix of a single
path segment whose id contains no slash. -/
theorem seg_no_inner_slash (id : Chars) (h : '/' ∉ id) (s : Chars)
    (hne : s ≠ []) (hp : s ++ ['/'] <+: nodeSeg id) : False := by
  rw [nodeSeg_eq_cons] at hp
  rcases s with _ | ⟨a, s₂⟩
  · exact hne rfl
  · rw [List.cons_append, List.cons_prefix_cons] at hp
    obtain ⟨rfl, hp₂⟩ := hp
    have hmem : '/' ∈ ('n' :: 'o' :: 'd' :: 'e' :: '_' :: id) :=
      hp₂.subset (by simp)
    simp at hmem
    exact h hmem

/-- Under the invariant, every path ends with its own node segment. -/
theorem path_shape (t : NodeTable) (hinv : pathInv t) (p : NodeRow)
    (hp : p ∈ t) : ∃ q, p.path = q ++ nodeSeg p.id := by
  have hk := hinv p hp
  unfold rowPathOk at hk
  rcases hpid : p.parent_id with _ | pid
  · rw [hpid] at hk
    exact ⟨[], by rw [List.nil_append]; exact hk⟩
  · rw [hpid] at hk
    obtain ⟨w, _, _, hpath⟩ := hk
    exact ⟨w.path, hpath⟩

/-- A path of segment shape never ends in the separator. -/
theorem path_not_end_slash (id : Chars) (q w : Chars) (h : '/' ∉ id) :
    q ++ nodeSeg id ≠ w ++ ['/'] := by
  intro heq
  have h1 : (q ++ nodeSeg id).getLast? = some '/' := by
    rw [heq]
    exact List.getLast?_concat w
  rw [List.getLast?_append] at h1
  rw [nodeSeg_eq_cons] at h1
  rcases hid : id.getLast? with _ | cc
  · have hidnil : id = [] := by
      rcases id with _ | ⟨x, xs⟩
      · rfl
      · exact absurd hid (by simp [List.getLast?_isSome] at hid ⊢)
    subst hidnil
    simp at h1
  · have hcc : cc ∈ id := List.mem_of_getLast?_eq_some hid
    have hlast : ('/' :: ('n' :: 'o' :: 'd' :: 'e' :: '_' :: id)).getLast?
        = some cc := by
      have h5 : ('/' :: ('n' :: 'o' :: 'd' :: 'e' :: '_' :: id)) =
          ['/', 'n', 'o', 'd', 'e', '_'] ++ id := rfl
      rw [h5, List.getLast?_append, hid]
      rfl
    rw [hlast] at h1
    simp at h1
    subst h1
    exact h hcc

/-- For a row `r` with parent witness `p` (`r.path = p.path ++ seg r`)
that lies strictly inside the moved subtree (`old_path ++ "/"` prefixes
`r.path`), the parent is the subtree root itself (`p.path = old_path`)
or also lies strictly inside it. -/
theorem desc_parent_cases (r p : NodeRow) (old_path : Chars)
    (hwit : r.path = p.path ++ nodeSeg r.id)
    (hshape : ∃ q, p.path = q ++ nodeSeg p.id)
    (hfr : '/' ∉ r.id) (hfp : '/' ∉ p.id)
    (hpre : old_path ++ ['/'] <+: r.path) :
    p.path = old_path ∨ old_path ++ ['/'] <+: p.path := by
  rw [hwit] at hpre
  rcases List.prefix_or_prefix_of_prefix hpre
      (List.prefix_append p.path (nodeSeg r.id)) with hu | hv
  · exact Or.inr hu
  · rcases List.prefix_or_prefix_of_prefix hv
        (List.prefix_append old_path ['/']) with hw | hx
    · rcases hw with ⟨s₁, hs⟩
      by_cases hnil : s₁ = []
      · left
        rw [← hs, hnil, List.append_nil]
      · exfalso
        rw [← hs, List.append_assoc, List.prefix_append_right_inj] at hpre
        exact seg_no_inner_slash r.id hfr s₁ hnil hpre
    · rcases hx with ⟨s₂, hs2⟩
      rw [← hs2, List.prefix_append_right_inj] at hv
      rcases s₂ with _ | ⟨a, s₃⟩
      · left
        rw [← hs2, List.append_nil]
      · exfalso
        rw [List.cons_prefix_cons] at hv
        obtain ⟨rfl, hs3⟩ := hv
        have hs3nil : s₃ = [] := List.prefix_nil.mp hs3
        obtain ⟨q, hq⟩ := hshape
        exact path_not_end_slash p.id q old_path hfp
          (by rw [← hq, ← hs2, hs3nil])

/-- The make-room updates only touch `sort`. -/
theorem shiftRowChild_pres (pid node_id : Chars) (new_sort : Int)
    (r : NodeRow) :
    (shiftRowChild pid node_id new_sort r).id = r.id ∧
    (shiftRowChild pid node_id new_sort r).path = r.path ∧
    (shiftRowChild pid node_id new_sort r).parent_id = r.parent_id := by
  unfold shiftRowChild
  split <;> exact ⟨rfl, rfl, rfl⟩

theorem shiftRowRoot_pres (project_id : Nat) (node_id : Chars)
    (new_sort : Int) (r : NodeRow) :
    (shiftRowRoot project_id node_id new_sort r).id = r.id ∧
    (shiftRowRoot project_id node_id new_sort r).path = r.path ∧
    (shiftRowRoot project_id node_id new_sort r).parent_id = r.parent_id := by
  unfold shiftRowRoot
  split <;> exact ⟨rfl, rfl, rfl⟩

/-- Core preservation argument: the three row updates performed by
`NodeAdapter.move_node` (make room among new siblings, rewrite the
moved row, reparent the strict descendants) keep the path invariant,
provided the target parent does not lie inside the moved subtree. -/
theorem move_tables_pathInv
    (t : NodeTable) (node : NodeRow) (node_id : Chars)
    (new_parent_id : Option Chars) (new_path : Chars) (new_sort : Int)
    (eid ename : String) (now : Nat)
    (shiftF : NodeRow → NodeRow)
    (hshift : ∀ r, (shiftF r).id = r.id ∧ (shiftF r).path = r.path ∧
      (shiftF r).parent_id = r.parent_id)
    (hinv : pathInv t) (huid : uniqueIds t) (hupath : uniquePaths t)
    (hsf : slashFreeIds t)
    (hnode : node ∈ t) (hnodeid : node.id = node_id)
    (hparent : match new_parent_id with
      | none => new_path = nodeSeg node.id
      | some pid => ∃ par, par ∈ t ∧ par.id = pid ∧
          new_path = par.path ++ nodeSeg node.id ∧
          ¬ (node.path <+: par.path)) :
    pathInv (update_descendants_path
      ((t.map shiftF).map (moveRow node_id new_parent_id new_path
        new_sort eid ename now))
      node_id node.path new_path) := by
  rw [update_descendants_path, List.map_map, List.map_map]
  -- per-row image and its properties
  set G : NodeRow → NodeRow := fun r =>
    reparentRow node_id node.path new_path
      (moveRow node_id new_parent_id new_path new_sort eid ename now
        (shiftF r)) with hG
  have hGmap : ((reparentRow node_id node.path new_path ∘
      moveRow node_id new_parent_id new_path new_sort eid ename now) ∘
        shiftF) = G := rfl
  rw [hGmap]
  -- the image of the moved node
  have hnode_shape := path_shape t hinv node hnode
  have hnode_path_ne : node.path ≠ [] := by
    obtain ⟨q, hq⟩ := hnode_shape
    rw [hq]
    intro hcon
    exact nodeSeg_ne_nil node.id (List.append_eq_nil.mp hcon).2
  have hGnode : (G node).path = new_path ∧ (G node).id = node.id ∧
      (G node).parent_id = new_parent_id := by
    obtain ⟨hsid, hspath, hspar⟩ := hshift node
    rw [hG]
    simp only
    rw [moveRow_eq (by rw [hsid]; exact hnodeid)]
    rw [reparentRow_neg (fun hcon => hcon.2 (by
      show (shiftF node).id = node_id
      rw [hsid]; exact hnodeid))]
    exact ⟨rfl, by rw [hsid], rfl⟩
  -- a row other than the moved one keeps id and parent
  have hGkeep : ∀ r : NodeRow, r.id ≠ node_id →
      (G r).id = r.id ∧ (G r).parent_id = r.parent_id := by
    intro r hid
    obtain ⟨hsid, hspath, hspar⟩ := hshift r
    rw [hG]
    simp only
    rw [moveRow_ne (by rw [hsid]; exact hid)]
    constructor
    · rw [reparentRow_id, hsid]
    · rw [reparentRow_parent, hspar]
  -- a row other than the moved one, not in the subtree, keeps its path
  have hGout : ∀ r : NodeRow, r.id ≠ node_id →
      ¬ ((node.path ++ ['/']) <+: r.path) → (G r).path = r.path := by
    intro r hid hnp
    obtain ⟨hsid, hspath, hspar⟩ := hshift r
    rw [hG]
    simp only
    rw [moveRow_ne (by rw [hsid]; exact hid)]
    rw [reparentRow_neg (fun hcon => hnp (by
      have hcc := List.isPrefixOf_iff_prefix.mp hcon.1
      rw [hspath] at hcc
      exact hcc))]
    exact hspath
  -- a strict descendant gets its prefix replaced
  have hGin : ∀ r : NodeRow, r.id ≠ node_id →
      ((node.path ++ ['/']) <+: r.path) →
      (G r).path = new_path ++ r.path.drop node.path.length := by
    intro r hid hpre
    obtain ⟨hsid, hspath, hspar⟩ := hshift r
    rw [hG]
    simp only
    rw [moveRow_ne (by rw [hsid]; exact hid)]
    unfold reparentRow
    rw [if_pos ⟨by rw [hspath]; exact List.isPrefixOf_iff_prefix.mpr hpre,
      by rw [hsid]; exact hid⟩]
    simp only
    rw [hspath]
  intro r' hr'
  rw [List.mem_map] at hr'
  obtain ⟨r, hr, hFr⟩ := hr'
  subst hFr
  by_cases hid : r.id = node_id
  · -- the moved node itself
    have hrn : r = node := huid r hr node hnode (by rw [hid, hnodeid])
    subst hrn
    rcases hnp : new_parent_id with _ | pid
    · rw [hnp] at hGnode
      refine rowPathOk_intro_none _ _ hGnode.2.2 ?_
      rw [hGnode.1, hGnode.2.1]
      rw [hnp] at hparent
      exact hparent
    · rw [hnp] at hGnode hparent
      obtain ⟨par, hparmem, hparid, hnewpath, hnpre⟩ := hparent
      have hparne : par.id ≠ node_id := by
        intro hcc
        have hpn : par = r := huid par hparmem r hr (by rw [hcc, ← hnodeid])
        exact hnpre (by rw [hpn])
      refine rowPathOk_intro_some _ _ pid hGnode.2.2 (G par)
        (List.mem_map_of_mem G hparmem) ?_ ?_
      · rw [(hGkeep par hparne).1]
        exact hparid
      · have hparout : (G par).path = par.path :=
          hGout par hparne (fun hcon =>
            hnpre ((List.prefix_append r.path ['/']).trans hcon))
        rw [hGnode.1, hGnode.2.1, hparout]
        exact hnewpath
  · -- some other row
    have hk := hinv r hr
    unfold rowPathOk at hk
    rcases hpid : r.parent_id with _ | rpid
    · -- a root row: it is never a strict descendant
      rw [hpid] at hk
      have hout : ¬ ((node.path ++ ['/']) <+: r.path) := by
        intro hcon
        rw [hk] at hcon
        exact seg_no_inner_slash r.id (hsf r hr) node.path hnode_path_ne hcon
      refine rowPathOk_intro_none _ _ ?_ ?_
      · rw [(hGkeep r hid).2]
        exact hpid
      · rw [hGout r hid hout, (hGkeep r hid).1]
        exact hk
    · rw [hpid] at hk
      obtain ⟨p, hp, hpidp, hpath⟩ := hk
      by_cases hc : (node.path ++ ['/']) <+: r.path
      · -- r is a strict descendant of the moved node
        have hdec := desc_parent_cases r p node.path hpath
          (path_shape t hinv p hp) (hsf r hr) (hsf p hp) hc
        rcases hdec with hdeq | hdpre
        · -- the parent is the moved node itself
          have hpn : p = node := hupath p hp node hnode hdeq
          refine rowPathOk_intro_some _ _ rpid
            (by rw [(hGkeep r hid).2]; exact hpid) (G node)
            (List.mem_map_of_mem G hnode) ?_ ?_
          · rw [hGnode.2.1, ← hpn]
            exact hpidp
          · rw [hGin r hid hc, hGnode.1, (hGkeep r hid).1]
            rw [hpath, hdeq, List.drop_left]
        · -- the parent is itself a strict descendant
          have hpne : p.id ≠ node_id := by
            intro hcc
            have hpn : p = node := huid p hp node hnode (by
              rw [hcc, hnodeid])
            rw [hpn] at hdpre
            have := hdpre.length_le
            simp at this
          refine rowPathOk_intro_some _ _ rpid
            (by rw [(hGkeep r hid).2]; exact hpid) (G p)
            (List.mem_map_of_mem G hp) ?_ ?_
          · rw [(hGkeep p hpne).1]
            exact hpidp
          · rw [hGin r hid hc, hGin p hpne hdpre, (hGkeep r hid).1]
            have hlen : node.path.length ≤ p.path.length := by
              have := hdpre.length_le
              simp at this
              omega
            rw [hpath, List.drop_append_of_le_length hlen,
              List.append_assoc]
      · -- r is outside the moved subtree
        have hpne : p.id ≠ node_id := by
          intro hcc
          have hpn : p = node := huid p hp node hnode (by
            rw [hcc, hnodeid])
          apply hc
          rw [hpath, hpn, List.prefix_append_right_inj, nodeSeg_eq_cons]
          exact List.cons_prefix_cons.mpr ⟨rfl, List.nil_prefix ..⟩
        have hppre : ¬ ((node.path ++ ['/']) <+: p.path) := by
          intro hcon
          exact hc (by
            rw [hpath]
            exact hcon.trans (List.prefix_append p.path (nodeSeg r.id)))
        refine rowPathOk_intro_some _ _ rpid
          (by rw [(hGkeep r hid).2]; exact hpid) (G p)
          (List.mem_map_of_mem G hp) ?_ ?_
        · rw [(hGkeep p hpne).1]
          exact hpidp
        · rw [hGout r hid hc, hGout p hpne hppre, (hGkeep r hid).1]
          exact hpath

theorem rowPathOk_append (t l : NodeTable) (r : NodeRow)
    (h : rowPathOk t r) : rowPathOk (t ++ l) r := by
  unfold rowPathOk at h ⊢
  rcases hpid : r.parent_id with _ | pid
  · rw [hpid] at h
    exact h
  · rw [hpid] at h
    obtain ⟨p, hp, h1, h2⟩ := h
    exact ⟨p, List.mem_append_left l hp, h1, h2⟩

theorem get_node_by_id_ok (t : NodeTable) (nid : Chars) (node : NodeRow)
    (h : get_node_by_id t nid = .ok node) :
    get_node_by_id_optional t nid = some node ∧ node ∈ t ∧
      node.id = nid := by
  unfold get_node_by_id at h
  rcases hfind : get_node_by_id_optional t nid with _ | x
  · rw [hfind] at h
    exact absurd h (by simp)
  · rw [hfind] at h
    have hx : x = node := Except.ok.inj h
    subst hx
    refine ⟨rfl, List.mem_of_find?_eq_some hfind, ?_⟩
    have := List.find?_some hfind
    simpa using this

/-- C3: the materialised-path invariant — every non-root row's path is
its parent's path followed by `/node_<id>`, a root row's path is
`/node_<id>` — holds after every `create_node` (the new row's path is
computed from its looked-up parent) and is preserved by every successful
`NodeService.move_node` (the moved row's path is rewritten from its new
parent and every row whose path extends the old path with `/` has that
prefix replaced by the new path).  Side conditions reflect the schema:
ids are unique (primary key), paths are unique, ids contain no `/`
(UUIDs), and parent ids are never the empty string. -/
theorem path_invariant_create_and_move :
    (∀ (t : NodeTable) (node : NodeRow) (fresh_id : Chars) (now : Nat)
       (n1 : NodeRow) (t1 : NodeTable),
       pathInv t → node.parent_id ≠ some [] →
       create_node t node fresh_id now = .ok (n1, t1) → pathInv t1) ∧
    (∀ (t : NodeTable) (node_id : Chars) (new_parent_id : Option Chars)
       (pred : Option Chars) (editor : Int) (now : Nat) (n1 : NodeRow)
       (t1 : NodeTable),
       pathInv t → uniqueIds t → uniquePaths t → slashFreeIds t →
       new_parent_id ≠ some [] →
       NodeService.move_node t node_id new_parent_id pred editor now =
         .ok (n1, t1) → pathInv t1) := by
  constructor
  · intro t node fresh_id now n1 t1 hinv hnp hok
    revert hok
    simp only [create_node]
    rcases hpid : node.parent_id with _ | pid
    · dsimp only
      intro h
      have hp := Except.ok.inj h
      rw [Prod.mk.injEq] at hp
      obtain ⟨h1, h2⟩ := hp
      subst h2
      intro r hr
      rw [List.mem_append] at hr
      rcases hr with hr | hr
      · exact rowPathOk_append t _ r (hinv r hr)
      · rw [List.mem_singleton] at hr
        subst hr
        exact rowPathOk_intro_none _ _ rfl rfl
    · rcases pid with _ | ⟨c, cs⟩
      · intro _
        exact absurd hpid hnp
      · dsimp only
        rcases hpar : get_node_by_id_optional t (c :: cs) with _ | parent
        · intro h
          exact absurd h (by simp)
        · intro h
          have hp := Except.ok.inj h
          rw [Prod.mk.injEq] at hp
          obtain ⟨h1, h2⟩ := hp
          subst h2
          intro r hr
          rw [List.mem_append] at hr
          rcases hr with hr | hr
          · exact rowPathOk_append t _ r (hinv r hr)
          · rw [List.mem_singleton] at hr
            subst hr
            refine rowPathOk_intro_some _ _ (c :: cs) rfl parent
              (List.mem_append_left _ (List.mem_of_find?_eq_some hpar))
              ?_ rfl
            have := List.find?_some hpar
            simpa using this
  · intro t node_id new_parent_id pred editor now n1 t1 hinv huid hupath
      hsf hnp hok
    revert hok
    simp only [NodeService.move_node]
    rcases hn : get_node_by_id t node_id with e | node
    · intro h
      exact absurd h (by simp)
    simp only [except_bind_ok]
    obtain ⟨hopt, hmem, hid⟩ := get_node_by_id_ok t node_id node hn
    by_cases hps : pred = some node_id
    · rw [if_pos hps]
      intro h
      exact absurd h (by simp)
    rw [if_neg hps]
    rcases hnpc : new_parent_id with _ | pid
    · dsimp only
      by_cases hty : node.node_type ≠ NodeType.application
      · rw [if_pos hty]
        intro h
        exact absurd h (by simp)
      rw [if_neg hty]
      rcases hsrt : predecessor_sort t pred none node with e | ns
      · intro h
        exact absurd h (by simp)
      simp only [except_bind_ok]
      simp only [NodeAdapter.move_node, hn, except_bind_ok]
      intro h
      have hpr := Except.ok.inj h
      rw [Prod.mk.injEq] at hpr
      obtain ⟨h1, h2⟩ := hpr
      subst h2
      exact move_tables_pathInv t node node_id none (nodeSeg node.id) ns
        "" "" now (shiftRowRoot node.project_id node_id ns)
        (shiftRowRoot_pres node.project_id node_id ns) hinv huid hupath
        hsf hmem hid rfl
    · rcases pid with _ | ⟨c, cs⟩
      · intro _
        exact absurd hnpc hnp
      · dsimp only
        rcases hpar : get_node_by_id t (c :: cs) with e | par
        · intro h
          exact absurd h (by simp)
        simp only [except_bind_ok]
        obtain ⟨hparopt, hparmem, hparid⟩ :=
          get_node_by_id_ok t (c :: cs) par hpar
        rcases hval : validate_parent node.node_type (some par) with e | u
        · intro h
          exact absurd h (by simp)
        simp only [except_bind_ok]
        by_cases hpre : node.path.isPrefixOf par.path = true
        · rw [if_pos hpre]
          intro h
          exact absurd h (by simp)
        rw [if_neg hpre]
        rcases hsrt : predecessor_sort t pred (some (c :: cs)) node
          with e | ns
        · intro h
          exact absurd h (by simp)
        simp only [except_bind_ok]
        simp only [NodeAdapter.move_node, hn, except_bind_ok]
        rw [hparopt]
        dsimp only
        intro h
        have hpr2 := Except.ok.inj h
        rw [Prod.mk.injEq] at hpr2
        obtain ⟨h1, h2⟩ := hpr2
        subst h2
        refine move_tables_pathInv t node node_id (some (c :: cs))
          (par.path ++ nodeSeg node.id) ns "" "" now
          (shiftRowChild (c :: cs) node_id ns)
          (shiftRowChild_pres (c :: cs) node_id ns) hinv huid hupath hsf
          hmem hid ?_
        exact ⟨par, hparmem, hparid, rfl,
          fun hcon => hpre (List.isPrefixOf_iff_prefix.mpr hcon)⟩

/-- The row the witness move writes for function `f`: under page `q`,
first slot, the adapter's empty editor defaults. -/
def movedFSvc : NodeRow :=
  { rowF with
    parent_id := some ['q'], path := rowQ.path ++ nodeSeg ['f']
    sort := 0, editor_id := "", editor_name := "", edited_at := 9 }

/-- Witness for C3: the fixture project satisfies the invariant and the
side conditions, the move of `f` under `q` succeeds, and the invariant
holds in the resulting table. -/
theorem path_invariant_create_and_move_witness :
    pathInv sampleT ∧ uniqueIds sampleT ∧ uniquePaths sampleT ∧
    slashFreeIds sampleT ∧
    NodeService.move_node sampleT ['f'] (some ['q']) none 42 9 =
      .ok (movedFSvc, [rowA, rowP, rowQ, movedFSvc]) ∧
    pathInv [rowA, rowP, rowQ, movedFSvc] :=
  ⟨by decide, by decide, by decide, by decide, rfl,
   path_invariant_create_and_move.2 sampleT ['f'] (some ['q']) none 42 9
     movedFSvc [rowA, rowP, rowQ, movedFSvc] (by decide) (by decide)
     (by decide) (by decide) (by decide) rfl⟩

/-! ## Claim C4: `get_application_detail_for_mcp`

The MCP detail endpoint assembles, for a node `n`, the ancestor chain
(`context`, root first) and `n` plus all of its descendants
(`content_to_develop`), each with the attached document content and its
rendered text. -/

/-- SQL `ORDER BY path, sort`: lexicographic on the `path` bytes, ties
broken by `sort`. -/
def rowKeyLe (r1 r2 : NodeRow) : Prop :=
  r1.path < r2.path ∨ (r1.path = r2.path ∧ r1.sort ≤ r2.sort)

instance : DecidableRel rowKeyLe := fun r1 r2 =>
  decidable_of_iff
    (r1.path < r2.path ∨ (r1.path = r2.path ∧ r1.sort ≤ r2.sort))
    (by unfold rowKeyLe; exact Iff.rfl)

instance : IsTotal NodeRow rowKeyLe := by
  refine ⟨fun a b => ?_⟩
  unfold rowKeyLe
  rcases lt_trichotomy a.path b.path with h | h | h
  · exact Or.inl (Or.inl h)
  · rcases le_total a.sort b.sort with hs | hs
    · exact Or.inl (Or.inr ⟨h, hs⟩)
    · exact Or.inr (Or.inr ⟨h.symm, hs⟩)
  · exact Or.inr (Or.inl h)

instance : IsTrans NodeRow rowKeyLe := by
  refine ⟨fun a b c hab hbc => ?_⟩
  unfold rowKeyLe at hab hbc ⊢
  rcases hab with h1 | ⟨h1, s1⟩
  · rcases hbc with h2 | ⟨h2, s2⟩
    · exact Or.inl (h1.trans h2)
    · exact Or.inl (lt_of_lt_of_le h1 (le_of_eq h2))
  · rcases hbc with h2 | ⟨h2, s2⟩
    · exact Or.inl (lt_of_le_of_lt (le_of_eq h1) h2)
    · exact Or.inr ⟨h1.trans h2, s1.trans s2⟩

/-- `NodeAdapter.get_descendants`: look up the node (empty result when it
is absent), then `SELECT … WHERE path LIKE <node.path>/% AND id != %s
ORDER BY path, sort`.  The SQL result order is modelled canonically by
insertion sort on the `(path, sort)` key. -/
def get_descendants (t : NodeTable) (node_id : Chars) : List NodeRow :=
  match get_node_by_id_optional t node_id with
  | none => []
  | some node =>
      List.insertionSort rowKeyLe
        (t.filter (fun r =>
          (node.path ++ ['/']).isPrefixOf r.path && r.id != node_id))

/-- The nine fields projected by the local `node_to_info` helper of
`get_application_detail_for_mcp`. -/
structure NodeInfo where
  id : Chars
  project_id : Nat
  parent_id : Option Chars
  node_type : NodeType
  name : String
  description : Option String
  path : Chars
  sort : Int
  document_id : Option Nat
deriving Repr, DecidableEq

/-- The local `node_to_info` helper. -/
def node_to_info (n : NodeRow) : NodeInfo :=
  { id := n.id, project_id := n.project_id, parent_id := n.parent_id
    node_type := n.node_type, name := n.name
    description := n.description, path := n.path, sort := n.sort
    document_id := n.document_id }

/-- The local `doc_for_node` helper: `if n.document_id and
self._document_content_port` — Python truthiness, so a missing or zero
`document_id` yields `None`; the content port is configured in
production. -/
def doc_for_node (contents : ContentStore) (n : NodeRow) : Option Json :=
  match n.document_id with
  | some d => if d = 0 then none else some (get_content contents d)
  | none => none

/-- One `context` / `content_to_develop` item:
`{"node": …, "document": …, "document_text": …}`. -/
structure DetailEntry where
  node : NodeInfo
  document : Option Json
  document_text : Option String

/-- Failures of `get_application_detail_for_mcp`: the missing-node
`ValueError` from `get_node_by_id`, or an exception escaping the tiptap
renderer. -/
inductive DetailErr where
  | nodeMissing (id : Chars)
  | renderError (msg : String)
deriving Repr, DecidableEq

/-- The local `item_with_doc` helper:
`out["document_text"] = tiptap_json_to_readable_text(doc) if doc else
None` — a falsy document (absent or `{}`) is kept as-is with no rendered
text; a renderer exception propagates out of the endpoint. -/
def item_with_doc (node_info : NodeInfo) (doc : Option Json) :
    Except DetailErr DetailEntry :=
  match doc with
  | some j =>
      if jsonTruthy j then
        match tiptap_json_to_readable_text j with
        | .ok txt => .ok ⟨node_info, some j, some txt⟩
        | .error e => .error (DetailErr.renderError e)
      else .ok ⟨node_info, some j, none⟩
  | none => .ok ⟨node_info, none, none⟩

/-- The ancestor-walk `while` loop of `get_application_detail_for_mcp`,
collecting rows parent-first (direct parent, …, root) and stopping at a
root or a dangling parent id.  The Python loop terminates because parent
links strictly shorten the materialised path; here an explicit fuel
bounds the recursion, and `ancestors_chain` below shows `t.length + 1`
is enough under the path invariant. -/
def ancestorsLoop (t : NodeTable) : Nat → Option Chars → List NodeRow
  | 0, _ => []
  | _ + 1, none => []
  | fuel + 1, some cid =>
      match get_node_by_id_optional t cid with
      | none => []
      | some anc => anc :: ancestorsLoop t fuel anc.parent_id

/-- The `for` loops of `get_application_detail_for_mcp`, which build a
list of items and let the first exception propagate. -/
def mapExcept {α β ε : Type} (f : α → Except ε β) :
    List α → Except ε (List β)
  | [] => .ok []
  | x :: xs => do
      let y ← f x
      let ys ← mapExcept f xs
      .ok (y :: ys)

/-- The payload `{"context": […], "content_to_develop": […]}`. -/
structure DetailPayload where
  context : List DetailEntry
  content_to_develop : List DetailEntry

/-- `NodeService.get_application_detail_for_mcp`.  The Python locals
`ancestors` (the reversed walk) and `descendants` are inlined. -/
def NodeService.get_application_detail_for_mcp
    (t : NodeTable) (contents : ContentStore) (node_id : Chars) :
    Except DetailErr DetailPayload := do
  let node ← match get_node_by_id t node_id with
    | .ok n => Except.ok n
    | .error _ => Except.error (DetailErr.nodeMissing node_id)
  let context ← mapExcept
    (fun n => item_with_doc (node_to_info n) (doc_for_node contents n))
    ((ancestorsLoop t (t.length + 1) node.parent_id).reverse)
  let content_to_develop ← mapExcept
    (fun n => item_with_doc (node_to_info n) (doc_for_node contents n))
    (node :: get_descendants t node_id)
  Except.ok ⟨context, content_to_develop⟩

/-- Spec-side: `anc` is exactly the ancestor chain of `n` listed
parent-first — each element is the parent row (in the table) of the one
before it, and the last one is a root. -/
def chainDown (t : NodeTable) : NodeRow → List NodeRow → Prop
  | n, [] => n.parent_id = none
  | n, p :: rest => n.parent_id = some p.id ∧ p ∈ t ∧ chainDown t p rest

theorem length_filter_le_filter {α : Type} (p q : α → Bool)
    (l : List α) (h : ∀ x ∈ l, p x = true → q x = true) :
    (l.filter p).length ≤ (l.filter q).length := by
  induction l with
  | nil => simp
  | cons a l ih =>
    have ih2 := ih (fun x hx hp => h x (List.mem_cons_of_mem a hx) hp)
    rw [List.filter_cons, List.filter_cons]
    by_cases hpa : p a = true
    · rw [if_pos hpa, if_pos (h a (List.mem_cons_self a l) hpa)]
      simpa using ih2
    · rw [if_neg hpa]
      cases hqa : q a
      · rw [if_neg (by simp [hqa])]
        exact ih2
      · rw [if_pos (by simp [hqa])]
        simp only [List.length_cons]
        omega

theorem length_filter_lt_filter {α : Type} (p q : α → Bool) (x0 : α)
    (l : List α) (h : ∀ x ∈ l, p x = true → q x = true) (hx : x0 ∈ l)
    (hq : q x0 = true) (hp : p x0 = false) :
    (l.filter p).length < (l.filter q).length := by
  induction l with
  | nil => cases hx
  | cons a l ih =>
    rw [List.filter_cons, List.filter_cons]
    rcases List.mem_cons.mp hx with rfl | hx2
    · rw [if_neg (by simp [hp]), if_pos (by simp [hq])]
      have hle := length_filter_le_filter p q l
        (fun x hxl hpx => h x (List.mem_cons_of_mem _ hxl) hpx)
      simp only [List.length_cons]
      omega
    · have ihl := ih (fun x hxl hpx => h x (List.mem_cons_of_mem _ hxl) hpx) hx2
      by_cases hpa : p a = true
      · rw [if_pos hpa, if_pos (h a (List.mem_cons_self a l) hpa)]
        simpa using ihl
      · rw [if_neg hpa]
        cases hqa : q a
        · rw [if_neg (by simp [hqa])]
          exact ihl
        · rw [if_pos (by simp [hqa])]
          simp only [List.length_cons]
          omega

/-- Fuel sufficiency for the ancestor walk: with more fuel than the
number of rows whose path is shorter than `n`'s, the walk from `n`'s
parent produces exactly `n`'s ancestor chain. -/
theorem ancestors_chain (t : NodeTable) (hinv : pathInv t)
    (huid : uniqueIds t) :
    ∀ (fuel : Nat) (n : NodeRow), n ∈ t →
      (t.filter (fun r => r.path.length < n.path.length)).length < fuel →
      chainDown t n (ancestorsLoop t fuel n.parent_id) := by
  intro fuel
  induction fuel with
  | zero => intro n _ hlt; omega
  | succ fuel ih =>
    intro n hn hlt
    rcases hpid : n.parent_id with _ | pid
    · simp only [ancestorsLoop, chainDown]
      exact hpid
    · have hrok := hinv n hn
      unfold rowPathOk at hrok
      rw [hpid] at hrok
      obtain ⟨p, hpt, hpidq, hppath⟩ := hrok
      rcases hfind : get_node_by_id_optional t pid with _ | q
      · exfalso
        unfold get_node_by_id_optional at hfind
        rw [List.find?_eq_none] at hfind
        exact hfind p hpt (by simp [hpidq])
      · have hqmem : q ∈ t := List.mem_of_find?_eq_some hfind
        have hqid : q.id = pid := by simpa using List.find?_some hfind
        have hqp : q = p := huid q hqmem p hpt (hqid.trans hpidq.symm)
        subst hqp
        simp only [ancestorsLoop, hfind, chainDown]
        refine ⟨by rw [hpid, hpidq], hpt, ?_⟩
        apply ih q hpt
        have hlen : q.path.length < n.path.length := by
          rw [hppath, List.length_append, nodeSeg_eq_cons, List.length_cons]
          omega
        have hstrict := length_filter_lt_filter
          (fun r => decide (r.path.length < q.path.length))
          (fun r => decide (r.path.length < n.path.length)) q t
          (fun x _ hpx => by
            simp only [decide_eq_true_eq] at hpx ⊢
            omega)
          hpt
          (by simp only [decide_eq_true_eq]; exact hlen)
          (by simp)
        omega

theorem mapExcept_ok {α β ε : Type} (f : α → Except ε β) :
    ∀ (l : List α) (out : List β), mapExcept f l = .ok out →
      List.Forall₂ (fun a b => f a = .ok b) l out := by
  intro l
  induction l with
  | nil =>
    intro out h
    simp only [mapExcept] at h
    have hout := Except.ok.inj h
    subst hout
    exact List.Forall₂.nil
  | cons a l ih =>
    intro out h
    simp only [mapExcept] at h
    rcases hfa : f a with e | y
    · rw [hfa] at h
      simp at h
    · rw [hfa] at h
      simp only [except_bind_ok] at h
      rcases hrest : mapExcept f l with e | ys
      · rw [hrest] at h
        simp at h
      · rw [hrest] at h
        simp only [except_bind_ok] at h
        have hout := Except.ok.inj h
        subst hout
        exact List.Forall₂.cons hfa (ih ys hrest)

theorem item_with_doc_ok_node (info : NodeInfo) (doc : Option Json)
    (e : DetailEntry) (h : item_with_doc info doc = .ok e) :
    e.node = info := by
  rcases doc with _ | j
  · simp only [item_with_doc] at h
    have he := Except.ok.inj h
    subst he
    rfl
  · simp only [item_with_doc] at h
    by_cases ht : jsonTruthy j = true
    · rw [if_pos ht] at h
      rcases hr : tiptap_json_to_readable_text j with msg | txt
      · rw [hr] at h
        simp at h
      · rw [hr] at h
        have he := Except.ok.inj h
        subst he
        rfl
    · rw [if_neg ht] at h
      have he := Except.ok.inj h
      subst he
      rfl

/-- C4: for an existing node, `get_application_detail_for_mcp`'s
`context` is exactly the root-to-parent ancestor chain of the node (in
that order, each entry carrying its document), `content_to_develop`
starts with the node itself, and the rest of `content_to_develop` is
exactly the set of rows whose path strictly extends the node's path with
`/`, ordered by `(path, sort)`. -/
theorem application_detail_context_and_descendants
    (t : NodeTable) (contents : ContentStore) (node_id : Chars)
    (node : NodeRow) (payload : DetailPayload)
    (hinv : pathInv t) (huid : uniqueIds t)
    (hnode : get_node_by_id_optional t node_id = some node)
    (hok : NodeService.get_application_detail_for_mcp t contents node_id
            = .ok payload) :
    (∃ anc : List NodeRow, chainDown t node anc ∧
      List.Forall₂
        (fun a e =>
          item_with_doc (node_to_info a) (doc_for_node contents a)
            = Except.ok e)
        anc.reverse payload.context) ∧
    ∃ e0 rest desc,
      payload.content_to_develop = e0 :: rest ∧
      item_with_doc (node_to_info node) (doc_for_node contents node)
        = Except.ok e0 ∧
      e0.node.id = node_id ∧
      desc.Perm (t.filter
        (fun r => (node.path ++ ['/']).isPrefixOf r.path)) ∧
      List.Sorted rowKeyLe desc ∧
      List.Forall₂
        (fun a e =>
          item_with_doc (node_to_info a) (doc_for_node contents a)
            = Except.ok e)
        desc rest := by
  have hmem : node ∈ t := List.mem_of_find?_eq_some hnode
  have hnid : node.id = node_id := by simpa using List.find?_some hnode
  have hfe : t.filter (fun r =>
        (node.path ++ ['/']).isPrefixOf r.path && r.id != node_id)
      = t.filter (fun r => (node.path ++ ['/']).isPrefixOf r.path) := by
    apply List.filter_congr
    intro x hx
    cases hpre : (node.path ++ ['/']).isPrefixOf x.path
    · simp
    · have hxid : x.id ≠ node_id := by
        intro hxe
        have hxn : x = node := huid x hx node hmem (by rw [hxe, hnid])
        rw [hxn] at hpre
        have hp2 := List.isPrefixOf_iff_prefix.mp hpre
        have hle := hp2.length_le
        rw [List.length_append] at hle
        simp at hle
      simp [hxid]
  unfold NodeService.get_application_detail_for_mcp at hok
  simp only [get_node_by_id, hnode, except_bind_ok] at hok
  rcases hctx : mapExcept
      (fun n => item_with_doc (node_to_info n) (doc_for_node contents n))
      ((ancestorsLoop t (t.length + 1) node.parent_id).reverse)
    with e | ctx
  · rw [hctx] at hok
    simp at hok
  · rw [hctx] at hok
    simp only [except_bind_ok] at hok
    rcases hdev : mapExcept
        (fun n => item_with_doc (node_to_info n) (doc_for_node contents n))
        (node :: get_descendants t node_id)
      with e | dev
    · rw [hdev] at hok
      simp at hok
    · rw [hdev] at hok
      simp only [except_bind_ok] at hok
      have hpay := Except.ok.inj hok
      subst hpay
      constructor
      · refine ⟨ancestorsLoop t (t.length + 1) node.parent_id, ?_, ?_⟩
        · exact ancestors_chain t hinv huid (t.length + 1) node hmem
            (Nat.lt_succ_of_le (List.length_filter_le _ t))
        · exact mapExcept_ok _ _ _ hctx
      · have hall := mapExcept_ok _ _ _ hdev
        cases hall with
        | cons he0 hrest =>
          refine ⟨_, _, get_descendants t node_id, rfl, he0, ?_, ?_, ?_, hrest⟩
          · rw [item_with_doc_ok_node _ _ _ he0]
            exact hnid
          · simp only [get_descendants, hnode]
            rw [hfe]
            exact List.perm_insertionSort rowKeyLe _
          · simp only [get_descendants, hnode]
            exact List.sorted_insertionSort rowKeyLe _

/-- The detail payload for page `p` of the fixture with an empty content
store: context is the application root, `content_to_develop` is `p`
followed by its descendant `f`, whose stored document is the falsy `{}`
(so no rendered text). -/
def detailPayloadW : DetailPayload :=
  { context := [⟨node_to_info rowA, none, none⟩]
    content_to_develop :=
      [⟨node_to_info rowP, none, none⟩,
       ⟨node_to_info rowF, some emptyObj, none⟩] }

/-- Witness for C4 on the fixture: the detail of page `p` has the root
`a` as context and `p`, `f` (path-sorted) to develop. -/
theorem application_detail_context_and_descendants_witness :
    pathInv sampleT ∧ uniqueIds sampleT ∧
    get_node_by_id_optional sampleT ['p'] = some rowP ∧
    NodeService.get_application_detail_for_mcp sampleT [] ['p']
      = Except.ok detailPayloadW ∧
    ((∃ anc : List NodeRow, chainDown sampleT rowP anc ∧
        List.Forall₂
          (fun a e =>
            item_with_doc (node_to_info a) (doc_for_node [] a)
              = Except.ok e)
          anc.reverse detailPayloadW.context) ∧
      ∃ e0 rest desc,
        detailPayloadW.content_to_develop = e0 :: rest ∧
        item_with_doc (node_to_info rowP) (doc_for_node [] rowP)
          = Except.ok e0 ∧
        e0.node.id = ['p'] ∧
        desc.Perm (sampleT.filter
          (fun r => (rowP.path ++ ['/']).isPrefixOf r.path)) ∧
        List.Sorted rowKeyLe desc ∧
        List.Forall₂
          (fun a e =>
            item_with_doc (node_to_info a) (doc_for_node [] a)
              = Except.ok e)
          desc rest) :=
  ⟨by decide, by decide, rfl, rfl,
    application_detail_context_and_descendants sampleT [] ['p'] rowP
      detailPayloadW (by decide) (by decide) rfl rfl⟩

end DipStudio
